import Mathlib

/-!
# Verification of the PSyTran loop-nest analysis core

A shallow embedding of the loop-nest classification and directive-placement
logic of the PSyTran/PSyACC repository (modules `family.py`, `loop.py`,
`clauses.py`, `transmute_rules.py`), together with theorems settling the
frozen claims about it.

The externally-owned PSyIR tree is modelled as a rose tree of nodes, each
carrying a kind, the directive clause attributes and an ordered list of
children.  PSyclone's structural `Node.__eq__` is modelled by Lean's
structural equality on this type.
-/

namespace PSyTran

/-- The node kinds relevant to the analysed code: `Loop` (with its induction
variable name), `Assignment`, `Reference` (with the referenced symbol name),
`Literal`, `Schedule`, `IntrinsicCall`, `IfBlock`, and the OpenACC directive
wrappers `ACCLoopDirective` / `ACCKernelsDirective`. -/
inductive Kind where
  | loop (var : String)
  | assignment
  | reference (sym : String)
  | literal
  | schedule
  | intrinsicCall
  | ifBlock
  | accLoopDir
  | accKernelsDir
  deriving DecidableEq, Repr

/-- The clause attributes carried by an `ACCLoopDirective` wrapper
 (`_collapse`, `_sequential`, `_gang`, `_vector` in the source).  All nodes
carry this record; it is only meaningful on directive wrappers. -/
structure Clauses where
  collapse : Option Int := none
  sequential : Bool := false
  gang : Bool := false
  vector : Bool := false
  deriving DecidableEq, Repr

/-- A PSyIR node: kind, clause attributes, ordered children.
A `Loop` node's children are `[start_expr, stop_expr, step_expr, body]`
with `body` a `Schedule`, following PSyclone's layout. -/
inductive Node where
  | node (kind : Kind) (clauses : Clauses) (children : List Node)

instance : Inhabited Node := ⟨.node .schedule {} []⟩

mutual

/-- Decidable structural equality on nodes, modelling PSyclone's structural
`Node.__eq__` (kinds, clause attributes and child lists are compared
recursively). -/
def Node.decEq : (a b : Node) → Decidable (a = b)
  | .node k c cs, .node k' c' cs' =>
    if hk : k = k' then
      if hc : c = c' then
        match Node.decEqList cs cs' with
        | isTrue hcs => isTrue (by rw [hk, hc, hcs])
        | isFalse hcs => isFalse (fun h => hcs (by cases h; rfl))
      else isFalse (fun h => hc (by cases h; rfl))
    else isFalse (fun h => hk (by cases h; rfl))

/-- Decidable structural equality on child lists. -/
def Node.decEqList : (as bs : List Node) → Decidable (as = bs)
  | [], [] => isTrue rfl
  | [], _ :: _ => isFalse (fun h => List.noConfusion h)
  | _ :: _, [] => isFalse (fun h => List.noConfusion h)
  | a :: as, b :: bs =>
    match Node.decEq a b, Node.decEqList as bs with
    | isTrue h1, isTrue h2 => isTrue (by rw [h1, h2])
    | isFalse h1, _ => isFalse (fun h => h1 (List.head_eq_of_cons_eq h))
    | _, isFalse h2 => isFalse (fun h => h2 (List.tail_eq_of_cons_eq h))

end

instance : DecidableEq Node := Node.decEq

def Node.kind : Node → Kind
  | .node k _ _ => k

def Node.clauses : Node → Clauses
  | .node _ c _ => c

def Node.children : Node → List Node
  | .node _ _ cs => cs

/-- `isinstance(n, nodes.Loop)`. -/
def Node.isLoop (t : Node) : Bool :=
  match t.kind with
  | .loop _ => true
  | _ => false

mutual

/-- Python `node.walk(Node)`: pre-order traversal, node first. -/
def Node.walkAll : Node → List Node
  | .node k c cs => .node k c cs :: walkForest cs

/-- Pre-order traversal of a forest, used by `Node.walkAll`. -/
def walkForest : List Node → List Node
  | [] => []
  | t :: ts => t.walkAll ++ walkForest ts

end

/-- Python `node.walk(nodes.Loop)`: the pre-order list of `Loop` nodes in the
subtree rooted at `t`, `t` included when it is itself a loop. -/
def walkLoops (t : Node) : List Node :=
  t.walkAll.filter Node.isLoop

/-- `get_children` from `family.py`: the *grandchildren* of a node (PSyclone
interposes a `Schedule` between a compound statement and its body statements),
in child-major order, filtered by the predicate `keep`. -/
def get_children (t : Node) (keep : Node → Bool) : List Node :=
  ((t.children.map Node.children).flatten).filter keep

mutual

/-- Number of nodes in a tree, used as recursion fuel for the functions that
descend through grandchildren (a shape the structural recursion cannot see). -/
def Node.size : Node → Nat
  | .node _ _ cs => 1 + sizeForest cs

/-- Number of nodes in a forest. -/
def sizeForest : List Node → Nat
  | [] => 0
  | t :: ts => t.size + sizeForest ts

end

/-- Node kinds ignored by `is_perfectly_nested` when collecting the non-loop
children of a nest level (the `exclude` tuple in `loop.py`):
`Literal`, `Reference`, `Loop`, `IntrinsicCall`. -/
def perfExcluded (t : Node) : Bool :=
  match t.kind with
  | .literal => true
  | .reference _ => true
  | .loop _ => true
  | .intrinsicCall => true
  | _ => false

/-- The level-by-level check of `is_perfectly_nested` (`loop.py`), with
explicit recursion fuel: at the current level, either there is exactly one
subnest loop child and no other (non-excluded) child — descend — or there is
no subnest loop child and no non-loop child contains a loop of the subnest —
the nest has bottomed out.  Any other shape fails the whole predicate. -/
def perfLevelF (subnest : List Node) : Nat → Node → Bool
  | 0, _ => false
  | fuel + 1, cur =>
    match (get_children cur Node.isLoop).filter (fun l => decide (l ∈ subnest)) with
    | [l] =>
      (get_children cur (fun g => !perfExcluded g)).isEmpty && perfLevelF subnest fuel l
    | [] =>
      (get_children cur (fun g => !perfExcluded g)).all fun n =>
        ((walkLoops n).filter (fun l => decide (l ∈ subnest))).isEmpty
    | _ => false

/-- The level-by-level check of `is_perfectly_nested`, started with enough
fuel to traverse the whole subtree (the Python `while` loop terminates because
each step descends to a grandchild). -/
def perfLevel (subnest : List Node) (cur : Node) : Bool :=
  perfLevelF subnest cur.size cur

/-- `loop2nest` from `loop.py`: the loop together with all of its descendent
loops, in pre-order (`get_descendents(loop, node_type=Loop, inclusive=True)`).
The `_check_loop` type guard is carried as a hypothesis of the theorems. -/
def loop2nest (t : Node) : List Node := walkLoops t

/-- `is_perfectly_nested` from `loop.py`, single-loop form: the subnest is the
full nest rooted at the loop. -/
def is_perfectly_nested (t : Node) : Bool :=
  perfLevel (loop2nest t) t

/-- `is_perfectly_nested` from `loop.py`, explicit-subnest form: the outer
loop is the first element (`nest2loop`).  At every repository call site
(`apply_loop_collapse`) the list is a nonempty prefix of a `loop2nest` result,
so `nest2loop`'s validating assertions hold; the empty case (an `IndexError`
in Python) is mapped to `false` and never reached. -/
def is_perfectly_nested_subnest (loops : List Node) : Bool :=
  match loops with
  | [] => false
  | outer :: rest => perfLevel (outer :: rest) outer

/-! ### Concrete node builders used by the claims' scenarios -/
def literalNode : Node := .node .literal {} []

def refNode (s : String) : Node := .node (.reference s) {} []

/-- A single assignment statement `a = 1` (children: lhs `Reference`, rhs
`Literal`, as in PSyIR). -/
def assignNode : Node := .node .assignment {} [refNode "a", literalNode]

def scheduleOf (stmts : List Node) : Node := .node .schedule {} stmts

/-- A loop over `v` with the given bound expressions and body statements. -/
def mkLoopB (v : String) (start stop step : Node) (body : List Node) : Node :=
  .node (.loop v) {} [start, stop, step, scheduleOf body]

/-- A loop over `v` with literal bounds (e.g. `1..10`). -/
def mkLoop (v : String) (body : List Node) : Node :=
  mkLoopB v literalNode literalNode literalNode body

/-! ### Straight chains and chains with an extra statement -/
/-- A straight chain of nested loops over the given (nonempty) list of
induction variables, with a single assignment as the innermost body. -/
def straightChain : List String → Node
  | [] => assignNode
  | [v] => mkLoop v [assignNode]
  | v :: v' :: vs => mkLoop v [straightChain (v' :: vs)]

/-- A straight chain with one extra statement inserted at level `k`
(0-based from the outer loop), either before or after the next loop of the
chain. -/
def chainExtra (extra : Node) (before : Bool) : Nat → List String → Node
  | 0, v :: vs =>
    mkLoop v (if before then [extra, straightChain vs] else [straightChain vs, extra])
  | k + 1, v :: vs => mkLoop v [chainExtra extra before k vs]
  | _, [] => assignNode

/-! ### `is_independent` -/
/-- The Python exceptions raised by the embedded functions. -/
inductive PyErr where
  | typeError (msg : String)
  | valueError (msg : String)
  | assertionError (msg : String)
  | indexError
  deriving DecidableEq, Repr

/-- `loop.start_expr`, i.e. `children[0]` of a loop node.  Our theorems only
apply it to well-formed loops (four children), where the `default` fallback
is never reached. -/
def Node.start_expr (t : Node) : Node :=
  match t.children with
  | s :: _ => s
  | _ => default

/-- `loop.stop_expr`, i.e. `children[1]` of a loop node. -/
def Node.stop_expr (t : Node) : Node :=
  match t.children with
  | _ :: s :: _ => s
  | _ => default

/-- `loop.step_expr`, i.e. `children[2]` of a loop node. -/
def Node.step_expr (t : Node) : Node :=
  match t.children with
  | _ :: _ :: s :: _ => s
  | _ => default

/-- `loop.loop_body`, i.e. `children[3]` of a loop node (its body Schedule). -/
def Node.loop_body (t : Node) : Node :=
  match t.children with
  | _ :: _ :: _ :: b :: _ => b
  | _ => default

/-- The symbol names of all `Reference` nodes of a subtree
(`bound.walk(nodes.Reference)` followed by `.symbol`). -/
def refNames (t : Node) : List String :=
  t.walkAll.filterMap fun n =>
    match n.kind with
    | .reference s => some s
    | _ => none

/-- `loop.variable` of a loop node, as its name. -/
def loopVar (t : Node) : String :=
  match t.kind with
  | .loop v => v
  | _ => ""

/-- The reference names occurring in the three bound expressions of a loop,
in the order `is_independent` scans them. -/
def boundRefNames (t : Node) : List String :=
  refNames t.start_expr ++ refNames t.stop_expr ++ refNames t.step_expr

/-- The `while` loop of `is_independent` (`loop.py`), with explicit fuel.
`prev` is `previous_variables`.  Each pass appends the current loop's
variable, steps to the first statement of the loop body
(`loop.loop_body.children[0]`, an `IndexError` when the body is empty),
returns `True` at the first non-loop, and returns `False` as soon as a bound
of the next loop references a previously seen variable. -/
def indepWalkF : Nat → Node → List String → Except PyErr Bool
  | 0, _, _ => .ok true
  | fuel + 1, cur, prev =>
    match cur.kind with
    | .loop v =>
      let prev' := prev ++ [v]
      match cur.loop_body.children with
      | [] => .error .indexError
      | nxt :: _ =>
        if nxt.isLoop then
          if (boundRefNames nxt).any (fun s => decide (s ∈ prev')) then .ok false
          else indepWalkF fuel nxt prev'
        else .ok true
    | _ => .ok true

/-- `is_independent` from `loop.py`: `ValueError` unless the loop is
perfectly nested, then the bound-reference walk starting from an empty
variable list. -/
def is_independent (t : Node) : Except PyErr Bool :=
  if is_perfectly_nested t then indepWalkF t.size t []
  else
    .error (.valueError "is_independent can only be applied to perfectly nested loops.")

/-- The chain of loops that `is_independent` visits: the loop itself, then
repeatedly the first statement of the body while it is a loop (fuel form). -/
def loopChainF : Nat → Node → List Node
  | 0, _ => []
  | fuel + 1, cur =>
    if cur.isLoop then
      cur ::
        (match cur.loop_body.children with
         | nxt :: _ => loopChainF fuel nxt
         | [] => [])
    else []

/-- The chain of loops that `is_independent` visits. -/
def loopChain (cur : Node) : List Node :=
  loopChainF cur.size cur

/-- Declarative dependence along a loop chain, relative to already-seen
variables `prev`: some loop of the chain other than the first has a bound
expression referencing a variable of `prev` or of an earlier chain loop. -/
def chainDependentFrom (ch : List Node) (prev : List String) : Bool :=
  (List.range ch.length).any fun i =>
    decide (1 ≤ i) &&
      (boundRefNames (ch.getD i default)).any fun s =>
        decide (s ∈ prev ++ (ch.take i).map loopVar)

/-- Declarative dependence of the nest walked by `is_independent`: some loop
in the chain of successive first body statements has a bound expression
referencing the induction variable of an earlier loop of that chain. -/
def chainDependent (t : Node) : Bool :=
  chainDependentFrom (loopChain t) []

/-- The dependence notion in the claim's wording: some inner loop of the nest
(a loop descendant) has a bound expression containing a `Reference` to the
induction variable of an enclosing loop of the nest. -/
def nestDependent (t : Node) : Bool :=
  (walkLoops t).any fun a =>
    ((walkForest a.children).filter Node.isLoop).any fun b =>
      decide (loopVar a ∈ boundRefNames b)

def intrinsicNode : Node := .node .intrinsicCall {} []

/-- An outer loop over `i` whose body holds an `IntrinsicCall` statement
followed by an inner loop over `j` whose start bound references `i`
(`j = i..10`).  The `IntrinsicCall` is one of the kinds `is_perfectly_nested`
ignores, so the nest is perfect, but `is_independent` walks only the *first*
statement of each body and never reaches the inner loop. -/
def hiddenDepNest : Node :=
  mkLoop "i"
    [intrinsicNode, mkLoopB "j" (refNode "i") literalNode literalNode [assignNode]]

/-! ### Paths, directives and clause application

The directive queries of `clauses.py` / `directives.py` walk *upwards* from a
loop through `parent` references.  A node's location in the caller-owned tree
is therefore modelled as a pair of the tree root and a path of child indices.
-/
/-- A position in a tree: the list of child indices from the root. -/
abbrev Path := List Nat

/-- The node at a path below the root, when the path is valid. -/
def Node.getAt : Node → Path → Option Node
  | t, [] => some t
  | t, i :: p =>
    match t.children[i]? with
    | some c => c.getAt p
    | none => none

/-- Replace the subtree at a path (identity on an invalid path). -/
def Node.setAt : Node → Path → Node → Node
  | _, [], r => r
  | .node k cl cs, i :: p, r =>
    match cs[i]? with
    | some c => .node k cl (cs.set i (c.setAt p r))
    | none => .node k cl cs

/-- Update the clause attributes of the node at a path, leaving its kind and
children untouched (the `loop.parent.parent._attr = value` mutations). -/
def Node.setClausesAt : Node → Path → (Clauses → Clauses) → Node
  | .node k cl cs, [], f => .node k (f cl) cs
  | .node k cl cs, i :: p, f =>
    match cs[i]? with
    | some c => .node k cl (cs.set i (c.setClausesAt p f))
    | none => .node k cl cs

/-- The proper-prefix paths of `p` — the ancestors — nearest first. -/
def ancPaths (p : Path) : List Path :=
  (List.range p.length).reverse.map fun k => p.take k

/-- The kind of the node at a path. -/
def kindAt (root : Node) (p : Path) : Option Kind :=
  (root.getAt p).map Node.kind

/-- The clause attributes of the node at a path. -/
def clausesAt (root : Node) (p : Path) : Clauses :=
  ((root.getAt p).getD default).clauses

/-- Is the node at `p` a `Loop`?  (`_check_loop`'s test; false for invalid
paths.) -/
def isLoopAt (root : Node) (p : Path) : Bool :=
  match root.getAt p with
  | some t => t.isLoop
  | none => false

/-- `has_kernels_directive(node)`: some strict ancestor is an ACC `kernels`
directive (`node.ancestor(ACCKernelsDirective) is not None`). -/
def has_kernels_directive (root : Node) (p : Path) : Bool :=
  (ancPaths p).any fun q => kindAt root q == some .accKernelsDir

/-- The path of `node.parent.parent`, two levels up.  The repository only
dereferences it below a kernels directive, where two ancestors exist; on
shorter paths the queries below treat the missing grandparent as "no
directive", as `isinstance(None, ...)` does. -/
def ppPath (p : Path) : Path := p.dropLast.dropLast

/-- `has_loop_directive(loop)` from `directives.py`:
`isinstance(loop.parent.parent, ACCLoopDirective)` and an enclosing kernels
directive. -/
def has_loop_directive (root : Node) (p : Path) : Bool :=
  decide (2 ≤ p.length) && (kindAt root (ppPath p) == some .accLoopDir)
    && has_kernels_directive root p

/-- `has_seq_clause(loop)` from `clauses.py`. -/
def has_seq_clause (root : Node) (p : Path) : Bool :=
  has_loop_directive root p && (clausesAt root (ppPath p)).sequential

/-- `has_gang_clause(loop)` from `clauses.py`. -/
def has_gang_clause (root : Node) (p : Path) : Bool :=
  has_loop_directive root p && (clausesAt root (ppPath p)).gang

/-- `has_vector_clause(loop)` from `clauses.py`. -/
def has_vector_clause (root : Node) (p : Path) : Bool :=
  has_loop_directive root p && (clausesAt root (ppPath p)).vector

/-- `ACCLoopTrans().apply(loop)` as called by `apply_loop_directive`:
interpose an `ACCLoopDirective` (with a fresh body `Schedule`) between the
loop and its parent — the structural insertion the external framework
performs.  The loop afterwards sits two levels below its old position. -/
def applyLoopDirAt (root : Node) (p : Path) : Node :=
  match root.getAt p with
  | some t => root.setAt p (.node .accLoopDir {} [.node .schedule {} [t]])
  | none => root

/-- `_prepare_loop_for_clause` from `clauses.py`: `_check_loop`, require an
enclosing kernels directive, then auto-apply a loop directive when absent.
Returns the updated tree and the loop's (possibly shifted) path.  The Python
`TypeError` message also names the offending type. -/
def prepare_loop_for_clause (root : Node) (p : Path) :
    Except PyErr (Node × Path) :=
  if ¬isLoopAt root p then .error (.typeError "Expected a Loop.")
  else if ¬has_kernels_directive root p then
    .error (.valueError "Cannot apply a loop clause without a kernels directive.")
  else if has_loop_directive root p then .ok (root, p)
  else .ok (applyLoopDirAt root p, p ++ [0, 0])

/-- `apply_loop_seq` from `clauses.py`.  The pair returned is the tree after
the call (mutations made before an exception persist) and the exception, if
any. -/
def apply_loop_seq (root : Node) (p : Path) : Node × Option PyErr :=
  match prepare_loop_for_clause root p with
  | .error e => (root, some e)
  | .ok (r1, p1) =>
    if has_gang_clause r1 p1 then
      (r1, some (.valueError "Cannot apply seq to a loop with a gang clause."))
    else if has_vector_clause r1 p1 then
      (r1, some (.valueError "Cannot apply seq to a loop with a vector clause."))
    else
      (r1.setClausesAt (ppPath p1) (fun c => { c with sequential := true }), none)

/-- `apply_loop_gang` from `clauses.py`. -/
def apply_loop_gang (root : Node) (p : Path) : Node × Option PyErr :=
  match prepare_loop_for_clause root p with
  | .error e => (root, some e)
  | .ok (r1, p1) =>
    if has_seq_clause r1 p1 then
      (r1, some (.valueError "Cannot apply gang to a loop with a seq clause."))
    else (r1.setClausesAt (ppPath p1) (fun c => { c with gang := true }), none)

/-- `apply_loop_vector` from `clauses.py`. -/
def apply_loop_vector (root : Node) (p : Path) : Node × Option PyErr :=
  match prepare_loop_for_clause root p with
  | .error e => (root, some e)
  | .ok (r1, p1) =>
    if has_seq_clause r1 p1 then
      (r1, some (.valueError "Cannot apply vector to a loop with a seq clause."))
    else (r1.setClausesAt (ppPath p1) (fun c => { c with vector := true }), none)

/-- The values the repository's callers pass for `collapse` (`None`, an
integer, or a wrong-typed value such as a string). -/
inductive PyVal where
  | vInt (n : Int)
  | vStr (s : String)
  | vNone
  deriving DecidableEq, Repr

/-- `type(x)` as rendered in the f-string error messages. -/
def pyTypeName : PyVal → String
  | .vInt _ => "<class 'int'>"
  | .vStr _ => "<class 'str'>"
  | .vNone => "<class 'NoneType'>"

/-- The prefix-shrinking `while` loop of `apply_loop_collapse` when
`collapse` is omitted: test the whole nest, then pop the last loop until a
perfectly nested prefix is found.  The fuel is exactly the list length. -/
def collapseSearchF : Nat → List Node → Option Nat
  | 0, _ => none
  | fuel + 1, loops =>
    match loops with
    | [] => none
    | _ =>
      if is_perfectly_nested_subnest loops then some loops.length
      else collapseSearchF fuel loops.dropLast

/-- The depth found by `apply_loop_collapse`'s prefix search. -/
def collapseSearch (loops : List Node) : Option Nat :=
  collapseSearchF loops.length loops

/-- `apply_loop_collapse` from `clauses.py` with a non-`None` `collapse`
argument (such a value never re-enters the prefix search).  Returns the tree
after the call and the raised exception, if any: the loop-directive
auto-application of `_prepare_loop_for_clause` persists even when a later
check raises, but `_collapse` is only assigned after every check passes. -/
def apply_loop_collapse_given (root : Node) (p : Path) (c : PyVal) :
    Node × Option PyErr :=
  match prepare_loop_for_clause root p with
  | .error e => (root, some e)
  | .ok (r1, p1) =>
    let loops := loop2nest ((r1.getAt p1).getD default)
    match c with
    | .vInt n =>
      if n ≤ 1 then
        (r1, some (.valueError s!"Expected an integer greater than one, not {n}."))
      else if loops.length < n then
        (r1, some (.valueError
          s!"Cannot apply collapse to {n} loops in a sub-nest of {loops.length}."))
      else
        (r1.setClausesAt (ppPath p1) (fun cl => { cl with collapse := some n }), none)
    | .vStr s =>
      (r1, some (.typeError s!"Expected an integer, not '{pyTypeName (.vStr s)}'."))
    | .vNone =>
      (r1, some (.typeError s!"Expected an integer, not '{pyTypeName .vNone}'."))

/-- `apply_loop_collapse` from `clauses.py`.  With `collapse=None` the prefix
search runs and, on success, re-enters with the found depth (the second
`_prepare_loop_for_clause` pass is then a no-op because the loop directive
already exists); if the search exhausted the list, `None` would reach the
integer check. -/
def apply_loop_collapse (root : Node) (p : Path) (c : PyVal) :
    Node × Option PyErr :=
  match c with
  | .vNone =>
    match prepare_loop_for_clause root p with
    | .error e => (root, some e)
    | .ok (r1, p1) =>
      match collapseSearch (loop2nest ((r1.getAt p1).getD default)) with
      | some d => apply_loop_collapse_given r1 p1 (.vInt d)
      | none =>
        (r1, some (.typeError "Expected an integer, not '<class 'NoneType'>'."))
  | .vInt n => apply_loop_collapse_given root p (.vInt n)
  | .vStr s => apply_loop_collapse_given root p (.vStr s)

/-- The inclusive Loop-typed ancestor paths of the node at `p`, nearest
first (`get_ancestors(loop, inclusive=True)` with the default
`node_type=Loop`). -/
def loopAncestorPathsInc (root : Node) (p : Path) : List Path :=
  (p :: ancPaths p).filter fun q => isLoopAt root q

/-- The scan of `has_collapse_clause`: walk the inclusive loop ancestors with
their index, skip those without a loop directive or with a `None` collapse,
and compare the first non-`None` collapse with the ancestor's index. -/
def collapseScan (root : Node) : List Path → Nat → Bool
  | [], _ => false
  | q :: rest, i =>
    if has_loop_directive root q then
      match (clausesAt root (ppPath q)).collapse with
      | none => collapseScan root rest (i + 1)
      | some c => decide (c > i)
    else collapseScan root rest (i + 1)

/-- `has_collapse_clause` from `clauses.py` (`is_collapsed` in the PSyACC
variant). -/
def has_collapse_clause (root : Node) (p : Path) : Except PyErr Bool :=
  if ¬isLoopAt root p then .error (.typeError "Expected a Loop.")
  else if ¬has_kernels_directive root p then .ok false
  else .ok (collapseScan root (loopAncestorPathsInc root p) 0)

/-- The tree-wide check that a Boolean property of a node's kind and clause
attributes holds at every node. -/
def allNodes (q : Kind → Clauses → Bool) (t : Node) : Bool :=
  t.walkAll.all fun n => q n.kind n.clauses

/-- The collapse values set on ACC loop directives of a tree, in pre-order;
"no collapse attribute is set" is expressed as this list being unchanged. -/
def collapseClauses (t : Node) : List Int :=
  t.walkAll.filterMap fun n =>
    if n.kind == .accLoopDir then n.clauses.collapse else none

/-- The seq-versus-gang/vector mutual-exclusion invariant, over every node of
the tree. -/
def seqExclusive (t : Node) : Bool :=
  allNodes (fun _ cl => !(cl.sequential && (cl.gang || cl.vector))) t

/-- A kernels-wrapped perfect depth-2 nest (`ACCKernelsDirective` over a
Schedule holding the `i`/`j` nest); the outer loop sits at path `[0, 0]`. -/
def kernelsNest2 : Node :=
  .node .accKernelsDir {}
    [.node .schedule {} [mkLoop "i" [mkLoop "j" [assignNode]]]]

/-- A kernels-wrapped imperfect depth-2 nest: an extra assignment sits next
to the inner loop, so only the one-loop prefix is perfectly nested. -/
def kernelsImp : Node :=
  .node .accKernelsDir {}
    [.node .schedule {} [mkLoop "i" [assignNode, mkLoop "j" [assignNode]]]]

/-- The claim's description of the collapsed-membership query: the nearest
inclusive loop ancestor carrying a loop directive whose collapse value is
non-null, at ancestor-distance `i`, decides the answer as `collapse > i`;
with no such ancestor the answer is false. -/
def collapsedSpec (root : Node) (p : Path) : Bool :=
  match (loopAncestorPathsInc root p).enum.find? (fun iq =>
      has_loop_directive root iq.2 &&
        (clausesAt root (ppPath iq.2)).collapse.isSome) with
  | some (i, q) => decide (((clausesAt root (ppPath q)).collapse).getD 0 > i)
  | none => false

/-! ### The Tree Navigator's argument checks (`get_descendents`) and the
parallel-region span heuristic (`span_check_loop` / `span_parallel`) -/
/-- Python values passed to `get_descendents`' node/inclusive/depth
arguments. -/
inductive PyArg where
  | aNode (t : Node)
  | aBool (b : Bool)
  | aInt (n : Int)
  | aFloat
  | aStr (s : String)
  | aNone
  deriving DecidableEq

/-- Python `type(x)` rendering for the f-string assertion messages of
`family.py`. -/
def pyArgTypeName : PyArg → String
  | .aNode _ => "<class 'psyclone.psyir.nodes.node.Node'>"
  | .aBool _ => "<class 'bool'>"
  | .aInt _ => "<class 'int'>"
  | .aFloat => "<class 'float'>"
  | .aStr _ => "<class 'str'>"
  | .aNone => "<class 'NoneType'>"

mutual

/-- Python `node.walk(...)` with each visited node's absolute tree depth
(`node.depth` is intrinsic in PSyclone; the subtree root's depth enters as
`d0`). -/
def walkDepths (d0 : Nat) : Node → List (Node × Nat)
  | .node k c cs => (.node k c cs, d0) :: walkDepthsForest (d0 + 1) cs

/-- Depth-annotated pre-order traversal of a forest. -/
def walkDepthsForest (d : Nat) : List Node → List (Node × Nat)
  | [] => []
  | t :: ts => walkDepths d t ++ walkDepthsForest d ts

end

/-- The list comprehension of `get_descendents`: the node's walk filtered by
node type and optional depth (inside `walk`), then by the excluded kinds and
— when not inclusive — dropping the node itself (`descendent is not node`,
an object-identity test that only the head of the walk can satisfy). -/
def gdList (t : Node) (node_type : Kind → Bool) (inclusive : Bool)
    (exclude : Kind → Bool) (depth : Option Int) (d0 : Nat) : List Node :=
  let walked := ((t, d0, true) ::
    (walkDepthsForest (d0 + 1) t.children).map fun nd => (nd.1, nd.2, false))
  ((walked.filter fun e => node_type e.1.kind &&
      (match depth with
       | none => true
       | some dv => decide ((e.2.1 : Int) = dv))).filter
    fun e => !exclude e.1.kind && (inclusive || !e.2.2)).map (·.1)

/-- Function `get_descendents` from `family.py`: the three `assert isinstance` guards
(`node` a Node, `inclusive` a bool, a non-`None` `depth` an int) raise
`AssertionError` with the f-string message; the `node_type` assert always
passes for a type filter. -/
def get_descendents (node : PyArg) (node_type : Kind → Bool) (inclusive : PyArg)
    (exclude : Kind → Bool) (depth : PyArg) (d0 : Nat) :
    Except PyErr (List Node) :=
  match node with
  | .aNode t =>
    match inclusive with
    | .aBool b =>
      match depth with
      | .aNone => .ok (gdList t node_type b exclude none d0)
      | .aInt n => .ok (gdList t node_type b exclude (some n) d0)
      | v => .error (.assertionError s!"Expected an int, not '{pyArgTypeName v}'.")
    | v => .error (.assertionError s!"Expected a bool, not '{pyArgTypeName v}'.")
  | v => .error (.assertionError s!"Expected a Node, not '{pyArgTypeName v}'.")

/-- Is this error a `TypeError`? -/
def PyErr.isTypeErr : PyErr → Bool
  | .typeError _ => true
  | _ => false

/-- The call `get_descendents(node, Loop)` without `inclusive`: the strict loop
descendants of a node, as used by `child_valid_trans` and
`work_out_collapse_depth`. -/
def strictLoopDescendants (t : Node) : List Node :=
  (walkForest t.children).filter Node.isLoop

/-- Function `work_out_collapse_depth` from `family.py`: one plus the number of loop
descendants when there are any; the options dict (modelled by its single
relevant entry, the collapse depth) is only updated when the depth exceeds
one, so a previous entry survives otherwise. -/
def work_out_collapse_depth (loop_node : Node) (options : Option Nat) :
    Option Nat :=
  let child_loop_list := strictLoopDescendants loop_node
  let n_collapse := if child_loop_list.isEmpty then 1 else 1 + child_loop_list.length
  if n_collapse > 1 then some n_collapse else options

/-- The per-loop validation loop of `child_valid_trans`, threading the reused
options dict; `vl` is the external `try_validation` of the OMP parallel-do
transformation (empty string = success).  On the first failure the loop
breaks with `valid_loop = False`; exhausting the list leaves the last
(successful) value. -/
def cvtGo (vl : Node → Option Nat → String) :
    List Node → Option Nat → Bool → Bool
  | [], _, acc => acc
  | l :: rest, o, _ =>
    let o' := work_out_collapse_depth l o
    let err := vl l o'
    if err.length = 0 || err = "" then cvtGo vl rest o' true
    else false

/-- Function `child_valid_trans` from `family.py`: collect the loop descendants (the
node itself first, when a loop), validate each against the parallel-do
transformation, and report whether all passed together with the number of
loops covered (zero when invalid or no loops). -/
def child_valid_trans (vl : Node → Option Nat → String)
    (check_current_node : Node) : Bool × Nat :=
  let loop_child_list := strictLoopDescendants check_current_node
  if loop_child_list.isEmpty then (false, 0)
  else
    let loop_child_list :=
      if check_current_node.isLoop then check_current_node :: loop_child_list
      else loop_child_list
    let valid_loop := cvtGo vl loop_child_list none false
    (valid_loop, if valid_loop then loop_child_list.length else 0)

/-- The mutable locals of the scan loop of `span_check_loop`. -/
structure SpanState where
  parallelPossible : Bool
  lastGoodIndex : Nat
  loopChildQty : Nat
  deriving DecidableEq

/-- The Python slice `child_list[start..index]` inclusive, as built by the
append loops of `span_check_loop` and `span_parallel`. -/
def sliceIncl (l : List Node) (a b : Nat) : List Node :=
  (l.drop a).take (b + 1 - a)

/-- One iteration of the scan of `span_check_loop`; the Boolean result tells
whether the scan continues (no `break`).  `cvt` is `child_valid_trans`
applied to its oracle, `vs` the external span validation (empty string =
success). -/
def spanStep (cvt : Node → Bool × Nat) (vs : List Node → String)
    (childList : List Node) (startIdx : Nat) (maxQty : Int) (idx : Nat)
    (s : SpanState) : SpanState × Bool :=
  let check := childList.getD idx default
  let assignmentCont := check.kind == Kind.assignment
  let step1 :=
    match check.kind with
    | .ifBlock => some (cvt check)
    | .loop _ => some (cvt check)
    | _ => none
  let tryParallel := match step1 with
    | some tq => tq.1
    | none => false
  let s1 :=
    match step1 with
    | some tq =>
      if tq.1 then { s with loopChildQty := s.loopChildQty + tq.2 } else s
    | none => s
  if (s1.loopChildQty : Int) > maxQty then (s1, false)
  else if tryParallel || assignmentCont then
    if tryParallel then
      if startIdx < idx then
        let err := vs (sliceIncl childList startIdx idx)
        if err.length = 0 || err = "" then
          ({ s1 with parallelPossible := true, lastGoodIndex := idx }, true)
        else (s1, false)
      else (s1, true)
    else (s1, true)
  else (s1, false)

/-- The scan loop of `span_check_loop` over the remaining indices; a `false`
continuation flag is the Python `break`. -/
def spanLoop (cvt : Node → Bool × Nat) (vs : List Node → String)
    (childList : List Node) (startIdx : Nat) (maxQty : Int) :
    List Nat → SpanState → SpanState
  | [], s => s
  | i :: rest, s =>
    match spanStep cvt vs childList startIdx maxQty i s with
    | (s', true) => spanLoop cvt vs childList startIdx maxQty rest s'
    | (s', false) => s'

/-- Function `span_check_loop` from `family.py`: scan `child_list` from the start
index up to (excluding) the last element, and report whether a span is
possible together with the last known-good end index. -/
def span_check_loop (cvt : Node → Bool × Nat) (vs : List Node → String)
    (child_list : List Node) (start_index_loop : Nat) (loop_max_qty : Int) :
    Bool × Nat :=
  let s := spanLoop cvt vs child_list start_index_loop loop_max_qty
    (List.range' start_index_loop (child_list.length - 1 - start_index_loop))
    ⟨false, 0, 0⟩
  (s.parallelPossible, s.lastGoodIndex)

/-- The nearest strict ancestor of a given kind (`node.ancestor(T)`). -/
def firstAncPathWith (root : Node) (p : Path) (pred : Kind → Bool) :
    Option Path :=
  (ancPaths p).find? fun q =>
    match kindAt root q with
    | some k => pred k
    | none => false

/-- The decision tail of `span_parallel`: when the scan reports a possible
span of more than one statement over `[start..last_good]`, the parallel
region transform is applied to it (returned as `some span`); otherwise
nothing is applied. -/
def span_parallel_core (cvt : Node → Bool × Nat) (vs : List Node → String)
    (child_list : List Node) (start_index_loop : Nat) (loop_max_qty : Int) :
    Option (List Node) :=
  let pr := span_check_loop cvt vs child_list start_index_loop loop_max_qty
  if pr.1 then
    let span_nodes := sliceIncl child_list start_index_loop pr.2
    if span_nodes.length > 1 then some span_nodes else none
  else none

/-- Function `span_parallel` from `family.py`: resolve the shared ancestor Schedule
(through an `IfBlock` ancestor when present), locate the start node among its
children (first structurally equal child, else index 0), scan, and apply the
transform over the final span when it has more than one statement.  The
returned value is the node list the transform was applied to, `none` when no
transform was applied (including the unreached `shared_ancestor is None`
crash case). -/
def span_parallel (cvt : Node → Bool × Nat) (vs : List Node → String)
    (root : Node) (p : Path) (loop_max_qty : Int) : Option (List Node) :=
  let if_loop_ancestor := firstAncPathWith root p (fun k => k == Kind.ifBlock)
  let pair :=
    match if_loop_ancestor with
    | some q => (firstAncPathWith root q (fun k => k == Kind.schedule), q)
    | none => (firstAncPathWith root p (fun k => k == Kind.schedule), p)
  match pair.1 with
  | none => none
  | some sp =>
    let child_list := ((root.getAt sp).getD default).children
    let check_node := (root.getAt pair.2).getD default
    let start_index_loop :=
      (child_list.findIdx? (fun n => n == check_node)).getD 0
    span_parallel_core cvt vs child_list start_index_loop loop_max_qty

/-- Class `TagOverride` from `transmute_rules.py` (its options dict modelled
as an association list). -/
structure TagOverride where
  loop_tag : String
  override_options : List (String × String)

/-- Class `OverridesClass` from `transmute_rules.py`. -/
structure OverridesClass where
  loopMaxQty : Int
  tagOverrides : List TagOverride

/-- The `OverridesClass` constructor: `_loop_max_qty` starts at the default
12 and is only overridden by a truthy (non-zero, non-`None`) argument;
`tag_overrides` defaults to the empty list (its per-element `isinstance`
validation always passes in this typed model). -/
def mkOverridesClass (loop_max_qty : Option Int)
    (tag_overrides : Option (List TagOverride)) : OverridesClass :=
  { loopMaxQty :=
      match loop_max_qty with
      | some n => if n ≠ 0 then n else 12
      | none => 12,
    tagOverrides := tag_overrides.getD [] }

/-- Getter `get_loop_max_qty` from `transmute_rules.py`. -/
def OverridesClass.get_loop_max_qty (o : OverridesClass) : Int :=
  o.loopMaxQty

theorem size_pos (t : Node) : 0 < t.size := by
  obtain ⟨k, cl, cs⟩ := t
  rw [Node.size]
  omega

theorem size_le_sizeForest {c : Node} :
    ∀ {cs : List Node}, c ∈ cs → c.size ≤ sizeForest cs
  | [], h => absurd h (List.not_mem_nil c)
  | x :: xs, h => by
    rw [sizeForest]
    rcases List.mem_cons.mp h with rfl | hx
    · omega
    · have := size_le_sizeForest hx
      omega

theorem size_lt_of_mem_children {c t : Node} (h : c ∈ t.children) :
    c.size < t.size := by
  obtain ⟨k, cl, cs⟩ := t
  simp only [Node.children] at h
  rw [Node.size]
  have := size_le_sizeForest h
  omega

theorem size_lt_of_mem_get_children {g t : Node} {keep : Node → Bool}
    (h : g ∈ get_children t keep) : g.size < t.size := by
  rw [get_children, List.mem_filter] at h
  obtain ⟨hmem, -⟩ := h
  rw [List.mem_flatten] at hmem
  obtain ⟨l, hl, hg⟩ := hmem
  rw [List.mem_map] at hl
  obtain ⟨c, hc, rfl⟩ := hl
  exact (size_lt_of_mem_children hg).trans (size_lt_of_mem_children hc)

/-- The fuel argument of `perfLevelF` is irrelevant once it is at least the
size of the current node. -/
theorem perfLevelF_fuel {subnest : List Node} :
    ∀ {f1 f2 : Nat} {cur : Node}, cur.size ≤ f1 → cur.size ≤ f2 →
      perfLevelF subnest f1 cur = perfLevelF subnest f2 cur := by
  intro f1
  induction f1 using Nat.strong_induction_on with
  | _ f1 ih =>
    intro f2 cur h1 h2
    have hpos := size_pos cur
    obtain ⟨g1, rfl⟩ : ∃ g1, f1 = g1 + 1 := ⟨f1 - 1, by omega⟩
    obtain ⟨g2, rfl⟩ : ∃ g2, f2 = g2 + 1 := ⟨f2 - 1, by omega⟩
    rw [perfLevelF, perfLevelF]
    cases hm : (get_children cur Node.isLoop).filter (fun l => decide (l ∈ subnest)) with
    | nil => rfl
    | cons l rest =>
      cases rest with
      | nil =>
        have hmem : l ∈ (get_children cur Node.isLoop).filter
            (fun l => decide (l ∈ subnest)) := by
          rw [hm]; exact List.mem_singleton.mpr rfl
        have hlt : l.size < cur.size :=
          size_lt_of_mem_get_children (List.mem_filter.mp hmem).1
        simp only
        rw [@ih g1 (by omega) g2 l (by omega) (by omega)]
      | cons _ _ => rfl

theorem perfLevelF_eq_perfLevel {subnest : List Node} {f : Nat} {cur : Node}
    (h : cur.size ≤ f) : perfLevelF subnest f cur = perfLevel subnest cur :=
  perfLevelF_fuel h le_rfl

/-- Fuel-free unfolding of one level of the perfect-nesting check, mirroring
one iteration of the `while` loop in `is_perfectly_nested`. -/
theorem perfLevel_eq_step (S : List Node) (cur : Node) :
    perfLevel S cur =
      match (get_children cur Node.isLoop).filter (fun l => decide (l ∈ S)) with
      | [l] => (get_children cur (fun g => !perfExcluded g)).isEmpty && perfLevel S l
      | [] =>
        (get_children cur (fun g => !perfExcluded g)).all fun n =>
          ((walkLoops n).filter (fun l => decide (l ∈ S))).isEmpty
      | _ => false := by
  rw [perfLevel]
  have hpos := size_pos cur
  obtain ⟨g, hg⟩ : ∃ g, cur.size = g + 1 := ⟨cur.size - 1, by omega⟩
  rw [hg, perfLevelF]
  cases hm : (get_children cur Node.isLoop).filter (fun l => decide (l ∈ S)) with
  | nil => rfl
  | cons l rest =>
    cases rest with
    | nil =>
      simp only
      congr 1
      have hmem : l ∈ (get_children cur Node.isLoop).filter
          (fun l => decide (l ∈ S)) := by
        rw [hm]; exact List.mem_singleton.mpr rfl
      have hlt : l.size < cur.size :=
        size_lt_of_mem_get_children (List.mem_filter.mp hmem).1
      exact perfLevelF_eq_perfLevel (by omega)
    | cons y ys => rfl

/-! ### Generic facts about the traversals -/
theorem mem_walkForest_iff {u : Node} :
    ∀ {ts : List Node}, u ∈ walkForest ts ↔ ∃ c ∈ ts, u ∈ c.walkAll := by
  intro ts
  induction ts with
  | nil => rw [walkForest]; simp
  | cons t ts ih =>
    rw [walkForest]
    simp only [List.mem_append, List.mem_cons, ih]
    constructor
    · rintro (h | ⟨c, hc, hu⟩)
      · exact ⟨t, Or.inl rfl, h⟩
      · exact ⟨c, Or.inr hc, hu⟩
    · rintro ⟨c, rfl | hc, hu⟩
      · exact Or.inl hu
      · exact Or.inr ⟨c, hc, hu⟩

theorem self_mem_walkAll (t : Node) : t ∈ t.walkAll := by
  obtain ⟨k, cl, cs⟩ := t
  rw [Node.walkAll]
  exact List.mem_cons_self _ _

theorem mem_walkAll_iff {u t : Node} :
    u ∈ t.walkAll ↔ u = t ∨ ∃ c ∈ t.children, u ∈ c.walkAll := by
  obtain ⟨k, cl, cs⟩ := t
  rw [Node.walkAll]
  simp only [List.mem_cons, Node.children, mem_walkForest_iff]

theorem walkAll_subset_of_mem_children {c t : Node} (hc : c ∈ t.children) :
    ∀ {u : Node}, u ∈ c.walkAll → u ∈ t.walkAll := by
  intro u hu
  exact mem_walkAll_iff.mpr (Or.inr ⟨c, hc, hu⟩)

theorem size_le_of_mem_walkAll_aux :
    ∀ n : Nat, ∀ {t u : Node}, t.size = n → u ∈ t.walkAll → u.size ≤ t.size := by
  intro n
  induction n using Nat.strong_induction_on with
  | _ n ih =>
    intro t u hn hu
    rcases mem_walkAll_iff.mp hu with rfl | ⟨c, hc, huc⟩
    · exact le_rfl
    · have hlt : c.size < t.size := size_lt_of_mem_children hc
      have hrec := ih c.size (by omega) rfl huc
      omega

theorem size_le_of_mem_walkAll {t u : Node} (hu : u ∈ t.walkAll) : u.size ≤ t.size :=
  size_le_of_mem_walkAll_aux t.size rfl hu

theorem walkLoops_subset_of_mem_children {c t : Node} (hc : c ∈ t.children)
    {u : Node} (hu : u ∈ walkLoops c) : u ∈ walkLoops t := by
  rw [walkLoops, List.mem_filter] at hu ⊢
  exact ⟨walkAll_subset_of_mem_children hc hu.1, hu.2⟩

theorem get_children_mkLoop (v : String) (body : List Node) (keep : Node → Bool) :
    get_children (mkLoop v body) keep = body.filter keep := by
  simp [mkLoop, mkLoopB, get_children, literalNode, scheduleOf, Node.children]

theorem walkLoops_mkLoop (v : String) (body : List Node) :
    walkLoops (mkLoop v body) =
      mkLoop v body :: (walkForest body).filter Node.isLoop := by
  simp [walkLoops, mkLoop, mkLoopB, scheduleOf, literalNode, Node.walkAll,
    walkForest, Node.isLoop, Node.kind, List.filter_append]

theorem isLoop_mkLoop (v : String) (body : List Node) :
    (mkLoop v body).isLoop = true := rfl

/-- A one-element subnest is always perfectly nested: a node is never a strict
descendant of itself, so the level check bottoms out at once.  This is the
`d = 1` fallback of `apply_loop_collapse`'s depth search. -/
theorem perfLevel_singleton (t : Node) : perfLevel [t] t = true := by
  rw [perfLevel_eq_step]
  have h1 : (get_children t Node.isLoop).filter (fun l => decide (l ∈ [t])) = [] := by
    rw [List.filter_eq_nil_iff]
    intro l hl
    have hlt := size_lt_of_mem_get_children hl
    simp only [List.mem_singleton, decide_eq_true_eq]
    rintro rfl
    omega
  rw [h1]
  rw [List.all_eq_true]
  intro n hn
  have hnsize := size_lt_of_mem_get_children hn
  have h2 : (walkLoops n).filter (fun l => decide (l ∈ [t])) = [] := by
    rw [List.filter_eq_nil_iff]
    intro u hu
    have hle := size_le_of_mem_walkAll (List.mem_filter.mp hu).1
    simp only [List.mem_singleton, decide_eq_true_eq]
    rintro rfl
    omega
  rw [h2]
  rfl

theorem self_mem_walkLoops {t : Node} (h : t.isLoop = true) : t ∈ walkLoops t := by
  rw [walkLoops, List.mem_filter]
  exact ⟨self_mem_walkAll t, h⟩

theorem walkLoops_body_subset {v : String} {body : List Node} {c u : Node}
    (hc : c ∈ body) (hu : u ∈ walkLoops c) : u ∈ walkLoops (mkLoop v body) := by
  rw [walkLoops_mkLoop]
  refine List.mem_cons_of_mem _ ?_
  rw [walkLoops, List.mem_filter] at hu
  rw [List.mem_filter]
  refine ⟨?_, hu.2⟩
  rw [mem_walkForest_iff]
  exact ⟨c, hc, hu.1⟩

theorem perfExcluded_of_isLoop {t : Node} (h : t.isLoop = true) :
    perfExcluded t = true := by
  obtain ⟨k, cl, cs⟩ := t
  cases k <;> simp_all [Node.isLoop, Node.kind, perfExcluded]

theorem straightChain_isLoop (vs : List String) (h : vs ≠ []) :
    (straightChain vs).isLoop = true := by
  match vs with
  | [v] => rfl
  | v :: v' :: vs => rfl

theorem chainExtra_isLoop (extra : Node) (before : Bool) (k : Nat)
    (vs : List String) (h : vs ≠ []) :
    (chainExtra extra before k vs).isLoop = true := by
  match k, vs with
  | 0, v :: vs => rw [chainExtra]; exact isLoop_mkLoop ..
  | k + 1, v :: vs => rw [chainExtra]; exact isLoop_mkLoop ..

theorem perfLevel_chain (S : List Node) :
    ∀ vs : List String, vs ≠ [] →
      (∀ u, u ∈ walkLoops (straightChain vs) → u ∈ S) →
      perfLevel S (straightChain vs) = true
  | [v], _, hsub => by
    rw [straightChain, perfLevel_eq_step, get_children_mkLoop, get_children_mkLoop]
    simp [assignNode, refNode, literalNode, Node.isLoop, Node.kind, perfExcluded,
      walkLoops, Node.walkAll, walkForest]
  | v :: v' :: vs, _, hsub => by
    rw [straightChain, perfLevel_eq_step, get_children_mkLoop, get_children_mkLoop]
    have hne : v' :: vs ≠ [] := by simp
    have hloop : (straightChain (v' :: vs)).isLoop = true := straightChain_isLoop _ hne
    have hnextS : straightChain (v' :: vs) ∈ S :=
      hsub _ (walkLoops_body_subset (List.mem_singleton.mpr rfl)
        (self_mem_walkLoops hloop))
    have h1 : List.filter Node.isLoop [straightChain (v' :: vs)]
        = [straightChain (v' :: vs)] := by simp [hloop]
    have h2 : List.filter (fun l => decide (l ∈ S)) [straightChain (v' :: vs)]
        = [straightChain (v' :: vs)] := by simp [hnextS]
    have h3 : List.filter (fun g => !perfExcluded g) [straightChain (v' :: vs)]
        = [] := by simp [perfExcluded_of_isLoop hloop]
    rw [h1, h2, h3]
    simp only [List.isEmpty_nil, Bool.true_and]
    exact perfLevel_chain S (v' :: vs) hne (fun u hu =>
      hsub u (walkLoops_body_subset (List.mem_singleton.mpr rfl) hu))

theorem assignNode_isLoop : assignNode.isLoop = false := rfl

theorem perfExcluded_assignNode : perfExcluded assignNode = false := rfl

theorem perfLevel_chainExtra (S : List Node) (extra : Node)
    (hextra : extra = assignNode ∨ ∃ w bw, extra = mkLoop w bw) (before : Bool) :
    ∀ (k : Nat) (vs : List String), k + 1 < vs.length →
      (∀ u, u ∈ walkLoops (chainExtra extra before k vs) → u ∈ S) →
      perfLevel S (chainExtra extra before k vs) = false
  | 0, v :: vs, hlen, hsub => by
    have hne : vs ≠ [] := by
      intro h
      subst h
      simp at hlen
    rw [chainExtra] at hsub ⊢
    have hloopN : (straightChain vs).isLoop = true := straightChain_isLoop _ hne
    have hmemN : straightChain vs ∈
        (if before then [extra, straightChain vs] else [straightChain vs, extra]) := by
      cases before <;> simp
    have hnextS : straightChain vs ∈ S :=
      hsub _ (walkLoops_body_subset hmemN (self_mem_walkLoops hloopN))
    rw [perfLevel_eq_step, get_children_mkLoop, get_children_mkLoop]
    rcases hextra with rfl | ⟨w, bw, rfl⟩
    · cases before
      · have e1 : List.filter Node.isLoop [straightChain vs, assignNode]
            = [straightChain vs] := by simp [hloopN, assignNode_isLoop]
        have e2 : List.filter (fun l => decide (l ∈ S)) [straightChain vs]
            = [straightChain vs] := by simp [hnextS]
        have e3 : List.filter (fun g => !perfExcluded g) [straightChain vs, assignNode]
            = [assignNode] := by
          simp [perfExcluded_assignNode, perfExcluded_of_isLoop hloopN]
        rw [if_neg (by simp), e1, e2, e3]
        simp
      · have e1 : List.filter Node.isLoop [assignNode, straightChain vs]
            = [straightChain vs] := by simp [hloopN, assignNode_isLoop]
        have e2 : List.filter (fun l => decide (l ∈ S)) [straightChain vs]
            = [straightChain vs] := by simp [hnextS]
        have e3 : List.filter (fun g => !perfExcluded g) [assignNode, straightChain vs]
            = [assignNode] := by
          simp [perfExcluded_assignNode, perfExcluded_of_isLoop hloopN]
        rw [if_pos rfl, e1, e2, e3]
        simp
    · have hloopE : (mkLoop w bw).isLoop = true := isLoop_mkLoop ..
      have hmemE : mkLoop w bw ∈
          (if before then [mkLoop w bw, straightChain vs]
           else [straightChain vs, mkLoop w bw]) := by
        cases before <;> simp
      have hextraS : mkLoop w bw ∈ S :=
        hsub _ (walkLoops_body_subset hmemE (self_mem_walkLoops hloopE))
      cases before
      · have e1 : List.filter Node.isLoop [straightChain vs, mkLoop w bw]
            = [straightChain vs, mkLoop w bw] := by simp [hloopN, hloopE]
        have e2 : List.filter (fun l => decide (l ∈ S))
            [straightChain vs, mkLoop w bw]
            = [straightChain vs, mkLoop w bw] := by simp [hnextS, hextraS]
        rw [if_neg (by simp), e1, e2]
      · have e1 : List.filter Node.isLoop [mkLoop w bw, straightChain vs]
            = [mkLoop w bw, straightChain vs] := by simp [hloopN, hloopE]
        have e2 : List.filter (fun l => decide (l ∈ S))
            [mkLoop w bw, straightChain vs]
            = [mkLoop w bw, straightChain vs] := by simp [hnextS, hextraS]
        rw [if_pos rfl, e1, e2]
  | k + 1, v :: vs, hlen, hsub => by
    have hlen' : k + 1 < vs.length := by
      simp only [List.length_cons] at hlen
      omega
    have hne : vs ≠ [] := by
      intro h
      subst h
      simp at hlen'
    rw [chainExtra] at hsub ⊢
    have hloopI : (chainExtra extra before k vs).isLoop = true :=
      chainExtra_isLoop _ _ _ _ hne
    have hinnerS : chainExtra extra before k vs ∈ S :=
      hsub _ (walkLoops_body_subset (List.mem_singleton.mpr rfl)
        (self_mem_walkLoops hloopI))
    rw [perfLevel_eq_step, get_children_mkLoop, get_children_mkLoop]
    have e1 : List.filter Node.isLoop [chainExtra extra before k vs]
        = [chainExtra extra before k vs] := by simp [hloopI]
    have e2 : List.filter (fun l => decide (l ∈ S)) [chainExtra extra before k vs]
        = [chainExtra extra before k vs] := by simp [hinnerS]
    have e3 : List.filter (fun g => !perfExcluded g) [chainExtra extra before k vs]
        = [] := by simp [perfExcluded_of_isLoop hloopI]
    rw [e1, e2, e3]
    simp only [List.isEmpty_nil, Bool.true_and]
    exact perfLevel_chainExtra S extra hextra before k vs hlen' (fun u hu =>
      hsub u (walkLoops_body_subset (List.mem_singleton.mpr rfl) hu))
  | _ + 1, [], hlen, _ => by simp at hlen
  | 0, [], hlen, _ => by simp at hlen

/-- C3: `is_perfectly_nested` is true on a straight chain of nested loops of
any depth at least 1 with a single assignment innermost, false as soon as a
second statement (an assignment or a loop, on either side) appears at any
non-innermost level, and on the double loop whose outer body holds an extra
assignment before the inner loop it is false for the outer loop and true for
the inner loop. -/
theorem is_perfectly_nested_chains :
    (∀ vs : List String, vs ≠ [] →
      is_perfectly_nested (straightChain vs) = true) ∧
    (∀ (extra : Node) (before : Bool) (k : Nat) (vs : List String),
      (extra = assignNode ∨ ∃ w bw, extra = mkLoop w bw) → k + 1 < vs.length →
      is_perfectly_nested (chainExtra extra before k vs) = false) ∧
    is_perfectly_nested (mkLoop "i" [assignNode, mkLoop "j" [assignNode]]) = false ∧
    is_perfectly_nested (mkLoop "j" [assignNode]) = true := by
  refine ⟨?_, ?_, by decide, by decide⟩
  · intro vs h
    exact perfLevel_chain _ vs h (fun _ hu => hu)
  · intro extra before k vs hex hlen
    exact perfLevel_chainExtra _ extra hex before k vs hlen (fun _ hu => hu)

theorem is_perfectly_nested_chains_witness :
    (["i", "j", "k"] ≠ ([] : List String)) ∧
    is_perfectly_nested (straightChain ["i", "j", "k"]) = true ∧
    is_perfectly_nested (chainExtra assignNode true 0 ["i", "j"]) = false :=
  ⟨by decide, is_perfectly_nested_chains.1 ["i", "j", "k"] (by decide),
    is_perfectly_nested_chains.2.1 assignNode true 0 ["i", "j"]
      (Or.inl rfl) (by decide)⟩

/-- C9: when a level has no loop child belonging to the candidate sub-nest,
`is_perfectly_nested` bottoms out and accepts any number and kind of
non-loop children: a loop whose body is loop-free is perfectly nested no
matter how many statements its body holds, and a one-loop sub-nest is
perfectly nested whatever lies below the loop. -/
theorem bottoming_out_accepts_nonloops :
    (∀ (v : String) (body : List Node),
      (walkForest body).filter Node.isLoop = [] →
      is_perfectly_nested (mkLoop v body) = true) ∧
    (∀ t : Node, is_perfectly_nested_subnest [t] = true) := by
  constructor
  · intro v body h
    rw [is_perfectly_nested, loop2nest, walkLoops_mkLoop, h]
    exact perfLevel_singleton _
  · intro t
    rw [is_perfectly_nested_subnest]
    exact perfLevel_singleton t

theorem bottoming_out_accepts_nonloops_witness :
    ((walkForest [assignNode, assignNode, assignNode]).filter Node.isLoop = []) ∧
    is_perfectly_nested (mkLoop "i" [assignNode, assignNode, assignNode]) = true ∧
    is_perfectly_nested_subnest [mkLoop "i" [mkLoop "j" [assignNode]]] = true :=
  ⟨by decide,
    bottoming_out_accepts_nonloops.1 "i" [assignNode, assignNode, assignNode]
      (by decide),
    bottoming_out_accepts_nonloops.2 (mkLoop "i" [mkLoop "j" [assignNode]])⟩

theorem loop_body_mem_or_default (t : Node) :
    t.loop_body ∈ t.children ∨ t.loop_body = default := by
  obtain ⟨k, cl, cs⟩ := t
  rcases cs with _ | ⟨a, _ | ⟨b, _ | ⟨c, _ | ⟨d, r⟩⟩⟩⟩
  · right; rfl
  · right; rfl
  · right; rfl
  · right; rfl
  · left
    show d ∈ a :: b :: c :: d :: r
    simp

theorem size_lt_of_loop_body_child {cur nxt : Node} {rest : List Node}
    (h : cur.loop_body.children = nxt :: rest) : nxt.size < cur.size := by
  rcases loop_body_mem_or_default cur with hmem | hdef
  · have hn : nxt ∈ cur.loop_body.children := by rw [h]; simp
    exact (size_lt_of_mem_children hn).trans (size_lt_of_mem_children hmem)
  · rw [hdef] at h
    simp [default, Node.children] at h

theorem loopChainF_fuel :
    ∀ {f1 f2 : Nat} {cur : Node}, cur.size ≤ f1 → cur.size ≤ f2 →
      loopChainF f1 cur = loopChainF f2 cur := by
  intro f1
  induction f1 using Nat.strong_induction_on with
  | _ f1 ih =>
    intro f2 cur h1 h2
    have hpos := size_pos cur
    obtain ⟨g1, rfl⟩ : ∃ g1, f1 = g1 + 1 := ⟨f1 - 1, by omega⟩
    obtain ⟨g2, rfl⟩ : ∃ g2, f2 = g2 + 1 := ⟨f2 - 1, by omega⟩
    rw [loopChainF, loopChainF]
    cases hL : cur.isLoop
    · simp
    · simp only [if_true]
      congr 1
      cases hb : cur.loop_body.children with
      | nil => rfl
      | cons nxt r =>
        have hlt : nxt.size < cur.size := size_lt_of_loop_body_child hb
        exact ih g1 (by omega) (by omega) (by omega)

theorem loopChain_eq_step (cur : Node) :
    loopChain cur =
      if cur.isLoop then
        cur ::
          (match cur.loop_body.children with
           | nxt :: _ => loopChain nxt
           | [] => [])
      else [] := by
  rw [loopChain]
  have hpos := size_pos cur
  obtain ⟨g, hg⟩ : ∃ g, cur.size = g + 1 := ⟨cur.size - 1, by omega⟩
  rw [hg, loopChainF]
  cases hL : cur.isLoop
  · simp
  · simp only [if_true]
    congr 1
    cases hb : cur.loop_body.children with
    | nil => rfl
    | cons nxt r =>
      have hlt : nxt.size < cur.size := size_lt_of_loop_body_child hb
      exact loopChainF_fuel (by omega) le_rfl

theorem chainDependentFrom_nil (prev : List String) :
    chainDependentFrom [] prev = false := by
  simp [chainDependentFrom]

theorem chainDependentFrom_single (x : Node) (prev : List String) :
    chainDependentFrom [x] prev = false := by
  simp [chainDependentFrom]

theorem chainDependentFrom_cons₂ (cur nxt : Node) (rest : List Node)
    (prev : List String) :
    chainDependentFrom (cur :: nxt :: rest) prev =
      ((boundRefNames nxt).any (fun s => decide (s ∈ prev ++ [loopVar cur])) ||
        chainDependentFrom (nxt :: rest) (prev ++ [loopVar cur])) := by
  have key : ∀ a b : Bool, (a = true ↔ b = true) → a = b := by
    intro a b hab
    cases a <;> cases b <;> simp_all
  apply key
  simp only [chainDependentFrom, List.any_eq_true, List.mem_range,
    Bool.and_eq_true, decide_eq_true_eq, Bool.or_eq_true, List.length_cons]
  constructor
  · rintro ⟨i, hilen, hige, s, hs, hmem⟩
    obtain ⟨j, rfl⟩ : ∃ j, i = j + 1 := ⟨i - 1, by omega⟩
    rw [List.getD_cons_succ] at hs
    rw [List.take_succ_cons, List.map_cons] at hmem
    rw [show prev ++ loopVar cur :: ((nxt :: rest).take j).map loopVar
        = (prev ++ [loopVar cur]) ++ ((nxt :: rest).take j).map loopVar by simp]
      at hmem
    rcases Nat.eq_zero_or_pos j with rfl | hj
    · left
      rw [List.getD_cons_zero] at hs
      simp only [List.take_zero, List.map_nil, List.append_nil] at hmem
      exact ⟨s, hs, hmem⟩
    · right
      exact ⟨j, by omega, by omega, s, hs, hmem⟩
  · rintro (⟨s, hs, hmem⟩ | ⟨j, hjlen, hjge, s, hs, hmem⟩)
    · refine ⟨1, by omega, by omega, s, ?_, ?_⟩
      · simpa using hs
      · simpa using hmem
    · refine ⟨j + 1, by omega, by omega, s, ?_, ?_⟩
      · rw [List.getD_cons_succ]
        exact hs
      · rw [List.take_succ_cons, List.map_cons]
        rw [show prev ++ loopVar cur :: ((nxt :: rest).take j).map loopVar
            = (prev ++ [loopVar cur]) ++ ((nxt :: rest).take j).map loopVar by simp]
        exact hmem

theorem indepWalkF_spec :
    ∀ (fuel : Nat) (cur : Node) (prev : List String), cur.size ≤ fuel →
      cur.isLoop = true →
      (∀ l ∈ loopChain cur, l.loop_body.children ≠ []) →
      indepWalkF fuel cur prev = .ok (!chainDependentFrom (loopChain cur) prev) := by
  intro fuel
  induction fuel using Nat.strong_induction_on with
  | _ fuel ih =>
    intro cur prev hf hloop hne
    have hpos := size_pos cur
    obtain ⟨g, rfl⟩ : ∃ g, fuel = g + 1 := ⟨fuel - 1, by omega⟩
    obtain ⟨v, hv⟩ : ∃ v, cur.kind = .loop v := by
      rw [Node.isLoop] at hloop
      cases hk : cur.kind <;> rw [hk] at hloop <;> simp at hloop
      exact ⟨_, rfl⟩
    have hvar : loopVar cur = v := by simp [loopVar, hv]
    rw [indepWalkF, hv]
    have hcur_mem : cur ∈ loopChain cur := by
      rw [loopChain_eq_step, if_pos hloop]
      exact List.mem_cons_self _ _
    cases hb : cur.loop_body.children with
    | nil => exact absurd hb (hne cur hcur_mem)
    | cons nxt r =>
      have hchain : loopChain cur =
          cur :: (if nxt.isLoop then loopChain nxt else []) := by
        rw [loopChain_eq_step, if_pos hloop, hb]
        cases hNL : nxt.isLoop
        · show cur :: loopChain nxt = [cur]
          rw [loopChain_eq_step, hNL]
          rfl
        · rfl
      cases hNL : nxt.isLoop
      · simp only [Bool.false_eq_true, if_false]
        rw [hchain, hNL]
        simp only [Bool.false_eq_true, if_false, chainDependentFrom_single]
        rfl
      · simp only [if_true]
        rw [hchain, hNL]
        simp only [if_true]
        have hnxtchain : ∃ ch, loopChain nxt = nxt :: ch := by
          rw [loopChain_eq_step, if_pos hNL]
          exact ⟨_, rfl⟩
        obtain ⟨ch, hch⟩ := hnxtchain
        rw [hch, chainDependentFrom_cons₂, hvar]
        cases hdep : (boundRefNames nxt).any fun s => decide (s ∈ prev ++ [v])
        · simp only [Bool.false_eq_true, if_false, Bool.false_or]
          have hlt : nxt.size < cur.size := size_lt_of_loop_body_child hb
          have hrec := ih g (by omega) nxt (prev ++ [v]) (by omega) hNL
            (fun l hl => hne l (by
              rw [hchain, hNL]
              simp only [if_true]
              exact List.mem_cons_of_mem _ hl))
          rw [hch] at hrec
          exact hrec
        · simp only [if_true, Bool.true_or, Bool.not_true]

/-- C4 counterexample: `hiddenDepNest` is perfectly nested and an inner loop
of its nest has a bound referencing the induction variable of an enclosing
loop of the nest, yet `is_independent` returns true — refuting the claimed
equivalence with the "some inner loop bound references an enclosing
induction variable" condition. -/
theorem is_independent_nest_counterexample :
    is_perfectly_nested hiddenDepNest = true ∧
    nestDependent hiddenDepNest = true ∧
    is_independent hiddenDepNest = .ok true := by
  refine ⟨by decide, by decide, ?_⟩
  rfl

/-- C4 (amended): `is_independent` raises `ValueError` when the loop is not
perfectly nested, and otherwise — whenever every loop along the walked chain
has a nonempty body — returns false if and only if some loop in the chain of
successive first body statements has a bound expression referencing the
induction variable of an earlier loop of that chain; in particular, with
outer loop `i` and inner loop `j = i..10` as the only statement, it returns
false on the outer loop and true on the inner loop alone. -/
theorem is_independent_chain_spec :
    (∀ t : Node, is_perfectly_nested t = false →
      is_independent t =
        .error
          (.valueError "is_independent can only be applied to perfectly nested loops.")) ∧
    (∀ t : Node, t.isLoop = true → is_perfectly_nested t = true →
      (∀ l ∈ loopChain t, l.loop_body.children ≠ []) →
      is_independent t = .ok (!chainDependent t)) ∧
    is_independent
      (mkLoop "i" [mkLoopB "j" (refNode "i") literalNode literalNode [assignNode]])
      = .ok false ∧
    is_independent (mkLoopB "j" (refNode "i") literalNode literalNode [assignNode])
      = .ok true := by
  refine ⟨?_, ?_, rfl, rfl⟩
  · intro t h
    rw [is_independent, if_neg (by simp [h])]
  · intro t hl hperf hne
    rw [is_independent, if_pos hperf, chainDependent]
    exact indepWalkF_spec t.size t [] le_rfl hl hne

theorem getAt_setAt_append {r : Node} :
    ∀ {p : Path} {root t : Node}, root.getAt p = some t →
      ∀ q, (root.setAt p r).getAt (p ++ q) = r.getAt q := by
  intro p
  induction p with
  | nil =>
    intro root t h q
    obtain ⟨k, cl, cs⟩ := root
    rfl
  | cons i rest ih =>
    intro root t h q
    obtain ⟨k, cl, cs⟩ := root
    rw [Node.getAt] at h
    simp only [Node.children] at h
    cases hc : cs[i]? with
    | none => rw [hc] at h; exact absurd h (by simp)
    | some c =>
      rw [hc] at h
      have hlt : i < cs.length := by
        by_contra hge
        rw [List.getElem?_eq_none (by omega)] at hc
        exact absurd hc (by simp)
      rw [Node.setAt, hc]
      show Node.getAt _ (i :: (rest ++ q)) = _
      rw [Node.getAt]
      simp only [Node.children]
      rw [List.getElem?_set_self hlt]
      exact ih h q

theorem getAt_setAt_above {r : Node} :
    ∀ {q p : Path} {root : Node}, q.length < p.length → q <+: p →
      ((root.setAt p r).getAt q).map (fun n => (n.kind, n.clauses)) =
        (root.getAt q).map fun n => (n.kind, n.clauses) := by
  intro q
  induction q with
  | nil =>
    intro p root hlen hpre
    obtain ⟨i, rest, rfl⟩ : ∃ i rest, p = i :: rest := by
      cases p
      · simp at hlen
      · exact ⟨_, _, rfl⟩
    obtain ⟨k, cl, cs⟩ := root
    rw [Node.setAt]
    cases hc : cs[i]? <;> rfl
  | cons j q' ih =>
    intro p root hlen hpre
    obtain ⟨i, p', rfl⟩ : ∃ i p', p = i :: p' := by
      cases p
      · simp at hlen
      · exact ⟨_, _, rfl⟩
    obtain ⟨rfl, hpre'⟩ : i = j ∧ q' <+: p' := by
      obtain ⟨s, hs⟩ := hpre
      rw [List.cons_append] at hs
      cases hs
      exact ⟨rfl, ⟨s, rfl⟩⟩
    obtain ⟨k, cl, cs⟩ := root
    rw [Node.setAt]
    cases hc : cs[i]? with
    | none => rfl
    | some c =>
      have hlt : i < cs.length := by
        by_contra hge
        rw [List.getElem?_eq_none (by omega)] at hc
        exact absurd hc (by simp)
      show (Node.getAt _ (i :: q')).map _ = (Node.getAt _ (i :: q')).map _
      rw [Node.getAt, Node.getAt]
      simp only [Node.children]
      rw [List.getElem?_set_self hlt, hc]
      exact ih (by simpa using hlen) hpre'

theorem walkAll_getAt_subset :
    ∀ {p : Path} {root t : Node}, root.getAt p = some t →
      ∀ u ∈ t.walkAll, u ∈ root.walkAll := by
  intro p
  induction p with
  | nil =>
    intro root t h u hu
    rw [Node.getAt] at h
    cases h
    exact hu
  | cons i rest ih =>
    intro root t h u hu
    obtain ⟨k, cl, cs⟩ := root
    rw [Node.getAt] at h
    simp only [Node.children] at h
    cases hc : cs[i]? with
    | none => rw [hc] at h; exact absurd h (by simp)
    | some c =>
      rw [hc] at h
      have hmem : c ∈ cs := List.getElem?_mem hc
      exact @walkAll_subset_of_mem_children _ (.node k cl cs)
        (by simpa [Node.children] using hmem) _ (ih h u hu)

theorem mem_ancPaths {p q : Path} :
    q ∈ ancPaths p ↔ ∃ k, k < p.length ∧ q = p.take k := by
  rw [ancPaths]
  simp only [List.mem_map, List.mem_reverse, List.mem_range]
  constructor
  · rintro ⟨k, hk, rfl⟩
    exact ⟨k, hk, rfl⟩
  · rintro ⟨k, hk, rfl⟩
    exact ⟨k, hk, rfl⟩

theorem ppPath_append₂ (p : Path) (a b : Nat) : ppPath (p ++ [a, b]) = p := by
  rw [ppPath]
  rw [show p ++ [a, b] = (p ++ [a]) ++ [b] by simp]
  rw [List.dropLast_concat, List.dropLast_concat]

theorem ppPath_append_two (p : Path) : ppPath (p ++ [0, 0]) = p :=
  ppPath_append₂ p 0 0

theorem set_of_getElem?_eq {α : Type} :
    ∀ (l : List α) (i : Nat) (a : α), l[i]? = some a → l.set i a = l
  | [], _, _, h => by simp at h
  | x :: xs, 0, a, h => by
    simp only [List.getElem?_cons_zero, Option.some.injEq] at h
    rw [List.set_cons_zero, h]
  | x :: xs, i + 1, a, h => by
    rw [List.set_cons_succ]
    rw [set_of_getElem?_eq xs i a (by simpa using h)]

theorem walkForest_all (q : Node → Bool) :
    ∀ ts : List Node, (walkForest ts).all q = ts.all fun t => t.walkAll.all q
  | [] => by rw [walkForest]; rfl
  | t :: ts => by
    rw [walkForest, List.all_append, List.all_cons, walkForest_all q ts]

theorem allNodes_node (q : Kind → Clauses → Bool) (k : Kind) (cl : Clauses)
    (cs : List Node) :
    allNodes q (.node k cl cs) = (q k cl && cs.all (allNodes q)) := by
  rw [allNodes, Node.walkAll, List.all_cons]
  congr 1
  rw [walkForest_all]
  rfl

theorem allNodes_mem {q : Kind → Clauses → Bool} {t u : Node}
    (h : allNodes q t = true) (hu : u ∈ t.walkAll) :
    q u.kind u.clauses = true := by
  rw [allNodes, List.all_eq_true] at h
  exact h u hu

theorem allNodes_getAt {q : Kind → Clauses → Bool} {root t : Node} {p : Path}
    (h : allNodes q root = true) (hg : root.getAt p = some t) :
    allNodes q t = true := by
  rw [allNodes, List.all_eq_true]
  intro u hu
  exact allNodes_mem h (walkAll_getAt_subset hg u hu)

theorem allNodes_setAt {q : Kind → Clauses → Bool} {r : Node} :
    ∀ {p : Path} {root : Node}, allNodes q root = true → allNodes q r = true →
      allNodes q (root.setAt p r) = true := by
  intro p
  induction p with
  | nil =>
    intro root h hr
    obtain ⟨k, cl, cs⟩ := root
    exact hr
  | cons i rest ih =>
    intro root h hr
    obtain ⟨k, cl, cs⟩ := root
    rw [Node.setAt]
    cases hc : cs[i]? with
    | none => exact h
    | some c =>
      rw [allNodes_node, Bool.and_eq_true] at h
      rw [allNodes_node, Bool.and_eq_true]
      refine ⟨h.1, ?_⟩
      rw [List.all_eq_true]
      intro x hx
      rcases List.mem_or_eq_of_mem_set hx with hmem | rfl
      · exact List.all_eq_true.mp h.2 x hmem
      · exact ih (List.all_eq_true.mp h.2 c (List.getElem?_mem hc)) hr

theorem allNodes_setClausesAt {q : Kind → Clauses → Bool} {f : Clauses → Clauses} :
    ∀ {p : Path} {root : Node}, allNodes q root = true →
      (∀ t : Node, root.getAt p = some t → q t.kind (f t.clauses) = true) →
      allNodes q (root.setClausesAt p f) = true := by
  intro p
  induction p with
  | nil =>
    intro root h hf
    obtain ⟨k, cl, cs⟩ := root
    rw [Node.setClausesAt, allNodes_node, Bool.and_eq_true]
    rw [allNodes_node, Bool.and_eq_true] at h
    exact ⟨hf _ rfl, h.2⟩
  | cons i rest ih =>
    intro root h hf
    obtain ⟨k, cl, cs⟩ := root
    rw [Node.setClausesAt]
    cases hc : cs[i]? with
    | none => exact h
    | some c =>
      rw [allNodes_node, Bool.and_eq_true] at h
      rw [allNodes_node, Bool.and_eq_true]
      refine ⟨h.1, ?_⟩
      rw [List.all_eq_true]
      intro x hx
      rcases List.mem_or_eq_of_mem_set hx with hmem | rfl
      · exact List.all_eq_true.mp h.2 x hmem
      · refine ih (List.all_eq_true.mp h.2 c (List.getElem?_mem hc)) ?_
        intro t ht
        apply hf
        rw [Node.getAt]
        simp only [Node.children]
        rw [hc]
        exact ht

theorem walkForest_filterMap {α : Type} (f : Node → Option α) :
    ∀ ts : List Node,
      (walkForest ts).filterMap f = (ts.map fun t => t.walkAll.filterMap f).flatten
  | [] => by rw [walkForest]; rfl
  | t :: ts => by
    rw [walkForest, List.filterMap_append, List.map_cons, List.flatten_cons,
      walkForest_filterMap f ts]

theorem collapseClauses_node (k : Kind) (cl : Clauses) (cs : List Node) :
    collapseClauses (.node k cl cs) =
      (if k == Kind.accLoopDir then cl.collapse else none).toList
        ++ (cs.map collapseClauses).flatten := by
  rw [collapseClauses, Node.walkAll, List.filterMap_cons, walkForest_filterMap]
  have hfun : (fun t : Node => t.walkAll.filterMap fun n =>
      if n.kind == Kind.accLoopDir then n.clauses.collapse else none)
      = collapseClauses := rfl
  rw [hfun]
  simp only [Node.kind, Node.clauses]
  cases hif : (if k == Kind.accLoopDir then cl.collapse else none) with
  | none => rfl
  | some c => rfl

theorem collapseClauses_setAt {r : Node} :
    ∀ {p : Path} {root t : Node}, root.getAt p = some t →
      collapseClauses r = collapseClauses t →
      collapseClauses (root.setAt p r) = collapseClauses root := by
  intro p
  induction p with
  | nil =>
    intro root t h hr
    rw [Node.getAt] at h
    cases h
    obtain ⟨k, cl, cs⟩ := root
    exact hr
  | cons i rest ih =>
    intro root t h hr
    obtain ⟨k, cl, cs⟩ := root
    rw [Node.getAt] at h
    simp only [Node.children] at h
    cases hc : cs[i]? with
    | none => rw [hc] at h; exact absurd h (by simp)
    | some c =>
      rw [hc] at h
      rw [Node.setAt, hc, collapseClauses_node, collapseClauses_node]
      congr 1
      rw [List.map_set, ih h hr]
      congr 1
      exact set_of_getElem?_eq _ i _ (by rw [List.getElem?_map, hc]; rfl)

theorem collapseClauses_applyLoopDirAt (root : Node) (p : Path) :
    collapseClauses (applyLoopDirAt root p) = collapseClauses root := by
  rw [applyLoopDirAt]
  cases hg : root.getAt p with
  | none => rfl
  | some t =>
    apply collapseClauses_setAt hg
    simp [collapseClauses_node]

theorem kindAt_setAt_above {root r : Node} {p q : Path}
    (hlen : q.length < p.length) (hpre : q <+: p) :
    kindAt (root.setAt p r) q = kindAt root q := by
  have h := @getAt_setAt_above r _ _ root hlen hpre
  rw [kindAt, kindAt]
  cases h1 : (root.setAt p r).getAt q <;> cases h2 : root.getAt q <;>
    rw [h1, h2] at h <;> simp_all

theorem isLoopAt_getAt {root : Node} {p : Path} (h : isLoopAt root p = true) :
    ∃ t, root.getAt p = some t ∧ t.isLoop = true := by
  rw [isLoopAt] at h
  cases hg : root.getAt p with
  | none => rw [hg] at h; simp at h
  | some t => rw [hg] at h; exact ⟨t, rfl, h⟩

theorem has_kernels_setAt {root r : Node} {p p1 : Path}
    (hk : has_kernels_directive root p = true) (hpre : p <+: p1) :
    has_kernels_directive (root.setAt p r) p1 = true := by
  rw [has_kernels_directive, List.any_eq_true] at hk ⊢
  obtain ⟨q, hq, hkind⟩ := hk
  obtain ⟨k, hklt, rfl⟩ := mem_ancPaths.mp hq
  obtain ⟨s, rfl⟩ := hpre
  refine ⟨p.take k, mem_ancPaths.mpr ⟨k, by simp; omega, ?_⟩, ?_⟩
  · rw [List.take_append_of_le_length (by omega)]
  · rw [kindAt_setAt_above (by simp [List.length_take]; omega)
      (List.take_prefix k p)]
    exact hkind

theorem prepare_ok_facts {root r1 : Node} {p p1 : Path}
    (h : prepare_loop_for_clause root p = .ok (r1, p1)) :
    r1.getAt p1 = root.getAt p ∧
    has_loop_directive r1 p1 = true ∧
    isLoopAt r1 p1 = true ∧
    (r1 = root ∧ p1 = p ∨ r1 = applyLoopDirAt root p ∧ p1 = p ++ [0, 0]) := by
  rw [prepare_loop_for_clause] at h
  by_cases hL : isLoopAt root p = true
  swap
  · rw [if_pos (by simpa using hL)] at h
    exact absurd h (by simp)
  rw [if_neg (by simpa using hL)] at h
  by_cases hK : has_kernels_directive root p = true
  swap
  · rw [if_pos (by simpa using hK)] at h
    exact absurd h (by simp)
  rw [if_neg (by simpa using hK)] at h
  obtain ⟨t, hg, ht⟩ := isLoopAt_getAt hL
  by_cases hD : has_loop_directive root p = true
  · rw [if_pos hD] at h
    simp only [Except.ok.injEq, Prod.mk.injEq] at h
    obtain ⟨rfl, rfl⟩ := h
    refine ⟨rfl, hD, hL, Or.inl ⟨rfl, rfl⟩⟩
  · rw [if_neg hD] at h
    simp only [Except.ok.injEq, Prod.mk.injEq] at h
    obtain ⟨rfl, rfl⟩ := h
    have hwrap : applyLoopDirAt root p =
        root.setAt p (.node .accLoopDir {} [.node .schedule {} [t]]) := by
      rw [applyLoopDirAt, hg]
    have hget : (applyLoopDirAt root p).getAt (p ++ [0, 0]) = some t := by
      rw [hwrap, getAt_setAt_append hg]
      rfl
    refine ⟨by rw [hget, hg], ?_, ?_, Or.inr ⟨rfl, rfl⟩⟩
    · rw [has_loop_directive]
      have h1 : decide (2 ≤ (p ++ [0, 0]).length) = true := by
        simp
      have h2get : (applyLoopDirAt root p).getAt p =
          some (.node .accLoopDir {} [.node .schedule {} [t]]) := by
        rw [hwrap]
        have hz := @getAt_setAt_append
          (.node .accLoopDir {} [.node .schedule {} [t]] : Node) _ _ _ hg []
        simpa using hz
      have h2 : kindAt (applyLoopDirAt root p) (ppPath (p ++ [0, 0]))
          == some Kind.accLoopDir := by
        rw [ppPath_append_two, kindAt, h2get]
        rfl
      have h3 : has_kernels_directive (applyLoopDirAt root p) (p ++ [0, 0]) = true := by
        rw [hwrap]
        exact has_kernels_setAt hK ⟨[0, 0], rfl⟩
      rw [h1, h2, h3]
      rfl
    · rw [isLoopAt, hget]
      exact ht

/-! Unfolding equations for the clause-applying wrappers, conditioned on the
outcome of `_prepare_loop_for_clause`. -/
theorem apply_loop_seq_error {root : Node} {p : Path} {e : PyErr}
    (h : prepare_loop_for_clause root p = .error e) :
    apply_loop_seq root p = (root, some e) := by
  rw [apply_loop_seq, h]

theorem apply_loop_seq_ok {root r1 : Node} {p p1 : Path}
    (h : prepare_loop_for_clause root p = .ok (r1, p1)) :
    apply_loop_seq root p =
      (if has_gang_clause r1 p1 then
        (r1, some (.valueError "Cannot apply seq to a loop with a gang clause."))
      else if has_vector_clause r1 p1 then
        (r1, some (.valueError "Cannot apply seq to a loop with a vector clause."))
      else
        (r1.setClausesAt (ppPath p1) (fun c => { c with sequential := true }), none)) := by
  rw [apply_loop_seq, h]

theorem apply_loop_gang_error {root : Node} {p : Path} {e : PyErr}
    (h : prepare_loop_for_clause root p = .error e) :
    apply_loop_gang root p = (root, some e) := by
  rw [apply_loop_gang, h]

theorem apply_loop_gang_ok {root r1 : Node} {p p1 : Path}
    (h : prepare_loop_for_clause root p = .ok (r1, p1)) :
    apply_loop_gang root p =
      (if has_seq_clause r1 p1 then
        (r1, some (.valueError "Cannot apply gang to a loop with a seq clause."))
      else (r1.setClausesAt (ppPath p1) (fun c => { c with gang := true }), none)) := by
  rw [apply_loop_gang, h]

theorem apply_loop_vector_error {root : Node} {p : Path} {e : PyErr}
    (h : prepare_loop_for_clause root p = .error e) :
    apply_loop_vector root p = (root, some e) := by
  rw [apply_loop_vector, h]

theorem apply_loop_vector_ok {root r1 : Node} {p p1 : Path}
    (h : prepare_loop_for_clause root p = .ok (r1, p1)) :
    apply_loop_vector root p =
      (if has_seq_clause r1 p1 then
        (r1, some (.valueError "Cannot apply vector to a loop with a seq clause."))
      else (r1.setClausesAt (ppPath p1) (fun c => { c with vector := true }), none)) := by
  rw [apply_loop_vector, h]

theorem apply_loop_collapse_given_error {root : Node} {p : Path} {c : PyVal}
    {e : PyErr} (h : prepare_loop_for_clause root p = .error e) :
    apply_loop_collapse_given root p c = (root, some e) := by
  rw [apply_loop_collapse_given, h]

theorem apply_loop_collapse_given_ok_int {root r1 : Node} {p p1 : Path} {n : Int}
    (h : prepare_loop_for_clause root p = .ok (r1, p1)) :
    apply_loop_collapse_given root p (.vInt n) =
      (if n ≤ 1 then
        (r1, some (.valueError s!"Expected an integer greater than one, not {n}."))
      else if (loop2nest ((r1.getAt p1).getD default)).length < n then
        (r1, some (.valueError
          s!"Cannot apply collapse to {n} loops in a sub-nest of {(loop2nest ((r1.getAt p1).getD default)).length}."))
      else
        (r1.setClausesAt (ppPath p1) (fun cl => { cl with collapse := some n }),
          none)) := by
  rw [apply_loop_collapse_given, h]

theorem apply_loop_collapse_given_ok_str {root r1 : Node} {p p1 : Path} {s : String}
    (h : prepare_loop_for_clause root p = .ok (r1, p1)) :
    apply_loop_collapse_given root p (.vStr s) =
      (r1, some (.typeError "Expected an integer, not '<class 'str'>'.")) := by
  rw [apply_loop_collapse_given, h]
  rfl

theorem apply_loop_collapse_vNone_error {root : Node} {p : Path} {e : PyErr}
    (h : prepare_loop_for_clause root p = .error e) :
    apply_loop_collapse root p .vNone = (root, some e) := by
  rw [apply_loop_collapse, h]

theorem apply_loop_collapse_vNone_ok {root r1 : Node} {p p1 : Path}
    (h : prepare_loop_for_clause root p = .ok (r1, p1)) :
    apply_loop_collapse root p .vNone =
      (match collapseSearch (loop2nest ((r1.getAt p1).getD default)) with
       | some d => apply_loop_collapse_given r1 p1 (.vInt d)
       | none =>
         (r1, some (.typeError "Expected an integer, not '<class 'NoneType'>'."))) := by
  rw [apply_loop_collapse, h]

theorem apply_loop_collapse_vInt (root : Node) (p : Path) (n : Int) :
    apply_loop_collapse root p (.vInt n) =
      apply_loop_collapse_given root p (.vInt n) := by
  rw [apply_loop_collapse]

theorem apply_loop_collapse_vStr (root : Node) (p : Path) (s : String) :
    apply_loop_collapse root p (.vStr s) =
      apply_loop_collapse_given root p (.vStr s) := by
  rw [apply_loop_collapse]

theorem allNodes_applyLoopDirAt {q : Kind → Clauses → Bool} {root : Node} {p : Path}
    (h : allNodes q root = true) (hdir : q .accLoopDir {} = true)
    (hsch : q .schedule {} = true) :
    allNodes q (applyLoopDirAt root p) = true := by
  rw [applyLoopDirAt]
  cases hg : root.getAt p with
  | none => exact h
  | some t =>
    apply allNodes_setAt h
    rw [allNodes_node, Bool.and_eq_true]
    refine ⟨hdir, ?_⟩
    simp only [List.all_cons, List.all_nil, Bool.and_true]
    rw [allNodes_node, Bool.and_eq_true]
    refine ⟨hsch, ?_⟩
    simp only [List.all_cons, List.all_nil, Bool.and_true]
    exact allNodes_getAt h hg

theorem seqExclusive_prepared {root r1 : Node} {p p1 : Path}
    (h : prepare_loop_for_clause root p = .ok (r1, p1))
    (hroot : seqExclusive root = true) : seqExclusive r1 = true := by
  rcases (prepare_ok_facts h).2.2.2 with ⟨rfl, rfl⟩ | ⟨rfl, rfl⟩
  · exact hroot
  · exact allNodes_applyLoopDirAt hroot rfl rfl

theorem seqExclusive_apply_loop_seq (root : Node) (p : Path)
    (h : seqExclusive root = true) :
    seqExclusive (apply_loop_seq root p).1 = true := by
  cases hprep : prepare_loop_for_clause root p with
  | error e =>
    rw [apply_loop_seq_error hprep]
    exact h
  | ok rp =>
    obtain ⟨r1, p1⟩ := rp
    rw [apply_loop_seq_ok hprep]
    have hr1 : seqExclusive r1 = true := seqExclusive_prepared hprep h
    by_cases hg : has_gang_clause r1 p1 = true
    · rw [if_pos hg]
      exact hr1
    · rw [if_neg hg]
      by_cases hv : has_vector_clause r1 p1 = true
      · rw [if_pos hv]
        exact hr1
      · rw [if_neg hv]
        apply allNodes_setClausesAt hr1
        intro t ht
        have hdir := (prepare_ok_facts hprep).2.1
        have hgf : t.clauses.gang = false := by
          rw [has_gang_clause, hdir, Bool.true_and, clausesAt, ht] at hg
          simpa using hg
        have hvf : t.clauses.vector = false := by
          rw [has_vector_clause, hdir, Bool.true_and, clausesAt, ht] at hv
          simpa using hv
        simp [hgf, hvf]

theorem seqExclusive_apply_loop_gang (root : Node) (p : Path)
    (h : seqExclusive root = true) :
    seqExclusive (apply_loop_gang root p).1 = true := by
  cases hprep : prepare_loop_for_clause root p with
  | error e =>
    rw [apply_loop_gang_error hprep]
    exact h
  | ok rp =>
    obtain ⟨r1, p1⟩ := rp
    rw [apply_loop_gang_ok hprep]
    have hr1 : seqExclusive r1 = true := seqExclusive_prepared hprep h
    by_cases hs : has_seq_clause r1 p1 = true
    · rw [if_pos hs]
      exact hr1
    · rw [if_neg hs]
      apply allNodes_setClausesAt hr1
      intro t ht
      have hdir := (prepare_ok_facts hprep).2.1
      have hsf : t.clauses.sequential = false := by
        rw [has_seq_clause, hdir, Bool.true_and, clausesAt, ht] at hs
        simpa using hs
      simp [hsf]

theorem seqExclusive_apply_loop_vector (root : Node) (p : Path)
    (h : seqExclusive root = true) :
    seqExclusive (apply_loop_vector root p).1 = true := by
  cases hprep : prepare_loop_for_clause root p with
  | error e =>
    rw [apply_loop_vector_error hprep]
    exact h
  | ok rp =>
    obtain ⟨r1, p1⟩ := rp
    rw [apply_loop_vector_ok hprep]
    have hr1 : seqExclusive r1 = true := seqExclusive_prepared hprep h
    by_cases hs : has_seq_clause r1 p1 = true
    · rw [if_pos hs]
      exact hr1
    · rw [if_neg hs]
      apply allNodes_setClausesAt hr1
      intro t ht
      have hdir := (prepare_ok_facts hprep).2.1
      have hsf : t.clauses.sequential = false := by
        rw [has_seq_clause, hdir, Bool.true_and, clausesAt, ht] at hs
        simpa using hs
      simp [hsf]

theorem seqExclusive_apply_loop_collapse_given (root : Node) (p : Path) (c : PyVal)
    (h : seqExclusive root = true) :
    seqExclusive (apply_loop_collapse_given root p c).1 = true := by
  cases hprep : prepare_loop_for_clause root p with
  | error e =>
    rw [apply_loop_collapse_given_error hprep]
    exact h
  | ok rp =>
    obtain ⟨r1, p1⟩ := rp
    have hr1 : seqExclusive r1 = true := seqExclusive_prepared hprep h
    cases c with
    | vInt n =>
      rw [apply_loop_collapse_given_ok_int hprep]
      by_cases h1 : n ≤ 1
      · rw [if_pos h1]
        exact hr1
      · rw [if_neg h1]
        by_cases h2 : (loop2nest ((r1.getAt p1).getD default)).length < n
        · rw [if_pos h2]
          exact hr1
        · rw [if_neg h2]
          apply allNodes_setClausesAt hr1
          intro t ht
          have hq := @allNodes_mem (fun _ cl =>
            !(cl.sequential && (cl.gang || cl.vector))) _ _ hr1
            (walkAll_getAt_subset ht t (self_mem_walkAll t))
          simpa using hq
    | vStr s =>
      rw [apply_loop_collapse_given_ok_str hprep]
      exact hr1
    | vNone =>
      rw [apply_loop_collapse_given, hprep]
      exact hr1

theorem seqExclusive_apply_loop_collapse (root : Node) (p : Path) (c : PyVal)
    (h : seqExclusive root = true) :
    seqExclusive (apply_loop_collapse root p c).1 = true := by
  cases c with
  | vNone =>
    cases hprep : prepare_loop_for_clause root p with
    | error e =>
      rw [apply_loop_collapse_vNone_error hprep]
      exact h
    | ok rp =>
      obtain ⟨r1, p1⟩ := rp
      rw [apply_loop_collapse_vNone_ok hprep]
      have hr1 : seqExclusive r1 = true := seqExclusive_prepared hprep h
      cases collapseSearch (loop2nest ((r1.getAt p1).getD default)) with
      | some d => exact seqExclusive_apply_loop_collapse_given r1 p1 (.vInt d) hr1
      | none => exact hr1
  | vInt n =>
    rw [apply_loop_collapse_vInt]
    exact seqExclusive_apply_loop_collapse_given root p (.vInt n) h
  | vStr s =>
    rw [apply_loop_collapse_vStr]
    exact seqExclusive_apply_loop_collapse_given root p (.vStr s) h

theorem prepare_of_has_loop_directive {root : Node} {p : Path}
    (hl : isLoopAt root p = true) (hdir : has_loop_directive root p = true) :
    prepare_loop_for_clause root p = .ok (root, p) := by
  have hk : has_kernels_directive root p = true := by
    rw [has_loop_directive, Bool.and_eq_true] at hdir
    exact hdir.2
  rw [prepare_loop_for_clause, if_neg (by simpa using hl),
    if_neg (by simpa using hk), if_pos hdir]

/-- C6: on a single loop directive a `seq` clause and a `gang`/`vector`
clause are never both set: `apply_loop_seq` raises `ValueError` when a gang
or vector clause is present, `apply_loop_gang` and `apply_loop_vector` raise
the symmetric error when a seq clause is present, and each clause-applying
operation (seq, gang, vector, collapse) preserves the mutual-exclusion
invariant over the whole tree, whatever the order of calls. -/
theorem clause_mutual_exclusion :
    (∀ (root : Node) (p : Path), isLoopAt root p = true →
      has_gang_clause root p = true →
      apply_loop_seq root p =
        (root, some (.valueError "Cannot apply seq to a loop with a gang clause."))) ∧
    (∀ (root : Node) (p : Path), isLoopAt root p = true →
      has_gang_clause root p = false → has_vector_clause root p = true →
      apply_loop_seq root p =
        (root, some (.valueError "Cannot apply seq to a loop with a vector clause."))) ∧
    (∀ (root : Node) (p : Path), isLoopAt root p = true →
      has_seq_clause root p = true →
      apply_loop_gang root p =
        (root, some (.valueError "Cannot apply gang to a loop with a seq clause.")) ∧
      apply_loop_vector root p =
        (root, some (.valueError "Cannot apply vector to a loop with a seq clause."))) ∧
    (∀ (root : Node) (p : Path), seqExclusive root = true →
      seqExclusive (apply_loop_seq root p).1 = true ∧
      seqExclusive (apply_loop_gang root p).1 = true ∧
      seqExclusive (apply_loop_vector root p).1 = true ∧
      ∀ c, seqExclusive (apply_loop_collapse root p c).1 = true) := by
  refine ⟨?_, ?_, ?_, ?_⟩
  · intro root p hl h
    have hdir : has_loop_directive root p = true := by
      rw [has_gang_clause, Bool.and_eq_true] at h
      exact h.1
    rw [apply_loop_seq_ok (prepare_of_has_loop_directive hl hdir), if_pos h]
  · intro root p hl hg h
    have hdir : has_loop_directive root p = true := by
      rw [has_vector_clause, Bool.and_eq_true] at h
      exact h.1
    rw [apply_loop_seq_ok (prepare_of_has_loop_directive hl hdir),
      if_neg (by simp [hg]), if_pos h]
  · intro root p hl h
    have hdir : has_loop_directive root p = true := by
      rw [has_seq_clause, Bool.and_eq_true] at h
      exact h.1
    constructor
    · rw [apply_loop_gang_ok (prepare_of_has_loop_directive hl hdir), if_pos h]
    · rw [apply_loop_vector_ok (prepare_of_has_loop_directive hl hdir), if_pos h]
  · intro root p h
    exact ⟨seqExclusive_apply_loop_seq root p h,
      seqExclusive_apply_loop_gang root p h,
      seqExclusive_apply_loop_vector root p h,
      fun c => seqExclusive_apply_loop_collapse root p c h⟩

theorem getAt_setClausesAt_deeper {f : Clauses → Clauses} :
    ∀ {q : Path} {root : Node} {ext : Path}, ext ≠ [] →
      (root.setClausesAt q f).getAt (q ++ ext) = root.getAt (q ++ ext) := by
  intro q
  induction q with
  | nil =>
    intro root ext hne
    obtain ⟨i, rest, rfl⟩ : ∃ i rest, ext = i :: rest := by
      cases ext with
      | nil => exact absurd rfl hne
      | cons i rest => exact ⟨i, rest, rfl⟩
    obtain ⟨k, cl, cs⟩ := root
    rfl
  | cons i q' ih =>
    intro root ext hne
    obtain ⟨k, cl, cs⟩ := root
    rw [Node.setClausesAt]
    cases hc : cs[i]? with
    | none => rfl
    | some c =>
      have hlt : i < cs.length := by
        by_contra hge
        rw [List.getElem?_eq_none (by omega)] at hc
        exact absurd hc (by simp)
      show Node.getAt _ (i :: (q' ++ ext)) = Node.getAt _ (i :: (q' ++ ext))
      rw [Node.getAt, Node.getAt]
      simp only [Node.children]
      rw [List.getElem?_set_self hlt, hc]
      exact ih hne

theorem getAt_setClausesAt_self {f : Clauses → Clauses} :
    ∀ {q : Path} {root t : Node}, root.getAt q = some t →
      (root.setClausesAt q f).getAt q =
        some (.node t.kind (f t.clauses) t.children) := by
  intro q
  induction q with
  | nil =>
    intro root t h
    rw [Node.getAt] at h
    cases h
    obtain ⟨k, cl, cs⟩ := root
    rfl
  | cons i q' ih =>
    intro root t h
    obtain ⟨k, cl, cs⟩ := root
    rw [Node.getAt] at h
    simp only [Node.children] at h
    cases hc : cs[i]? with
    | none => rw [hc] at h; exact absurd h (by simp)
    | some c =>
      rw [hc] at h
      have hlt : i < cs.length := by
        by_contra hge
        rw [List.getElem?_eq_none (by omega)] at hc
        exact absurd hc (by simp)
      rw [Node.setClausesAt, hc]
      show Node.getAt _ (i :: q') = _
      rw [Node.getAt]
      simp only [Node.children]
      rw [List.getElem?_set_self hlt]
      exact ih h

theorem path_split_two {p : Path} (h : 2 ≤ p.length) :
    ∃ a b, p = ppPath p ++ [a, b] := by
  have h1 : p ≠ [] := by
    intro hp
    subst hp
    simp at h
  have h2 : p.dropLast ≠ [] := by
    intro hp
    have := List.length_dropLast p
    rw [hp] at this
    simp at this
    omega
  refine ⟨(p.dropLast).getLast h2, p.getLast h1, ?_⟩
  rw [ppPath]
  conv_lhs => rw [← List.dropLast_append_getLast h1, ← List.dropLast_append_getLast h2]
  simp

theorem loop2nest_cons {t : Node} (h : t.isLoop = true) :
    ∃ rest, loop2nest t = t :: rest := by
  obtain ⟨k, cl, cs⟩ := t
  rw [loop2nest, walkLoops, Node.walkAll, List.filter_cons, h]
  exact ⟨_, rfl⟩

theorem collapseSearch_eq_step (loops : List Node) (h : loops ≠ []) :
    collapseSearch loops =
      if is_perfectly_nested_subnest loops then some loops.length
      else collapseSearch loops.dropLast := by
  obtain ⟨x, xs, rfl⟩ : ∃ x xs, loops = x :: xs := by
    cases loops with
    | nil => exact absurd rfl h
    | cons x xs => exact ⟨x, xs, rfl⟩
  rw [collapseSearch, List.length_cons, collapseSearchF, collapseSearch]
  simp only [List.length_dropLast, List.length_cons, Nat.add_sub_cancel]
  simp

theorem collapseSearch_spec :
    ∀ (n : Nat) (loops : List Node), loops.length = n → loops ≠ [] →
      is_perfectly_nested_subnest (loops.take 1) = true →
      ∃ d, collapseSearch loops = some d ∧ 1 ≤ d ∧ d ≤ loops.length ∧
        is_perfectly_nested_subnest (loops.take d) = true ∧
        ∀ e, d < e → e ≤ loops.length →
          is_perfectly_nested_subnest (loops.take e) = false := by
  intro n
  induction n using Nat.strong_induction_on with
  | _ n ih =>
    intro loops hn hne h1
    have hlen1 : 1 ≤ loops.length := by
      cases loops with
      | nil => exact absurd rfl hne
      | cons x xs => simp
    rw [collapseSearch_eq_step loops hne]
    by_cases hperf : is_perfectly_nested_subnest loops = true
    · rw [if_pos hperf]
      refine ⟨loops.length, rfl, hlen1, le_rfl, ?_, ?_⟩
      · rw [List.take_length]
        exact hperf
      · intro e he1 he2
        omega
    · rw [if_neg hperf]
      have hlen2 : 2 ≤ loops.length := by
        rcases Nat.lt_or_ge loops.length 2 with hlt | hge
        · exfalso
          have hone : loops.length = 1 := by omega
          rw [← @List.take_length _ loops, hone] at hperf
          exact hperf h1
        · exact hge
      have hdlen : loops.dropLast.length = loops.length - 1 :=
        List.length_dropLast loops
      have hdrop_ne : loops.dropLast ≠ [] := by
        intro hd
        rw [hd] at hdlen
        simp at hdlen
        omega
      have hdtake : ∀ e, e ≤ loops.length - 1 →
          loops.dropLast.take e = loops.take e := by
        intro e he
        rw [List.dropLast_eq_take, List.take_take]
        congr 1
        omega
      have hdrop_h1 : is_perfectly_nested_subnest (loops.dropLast.take 1) = true := by
        rw [hdtake 1 (by omega)]
        exact h1
      obtain ⟨d, hd, hd1, hdle, hdperf, hdmax⟩ :=
        ih loops.dropLast.length (by omega) loops.dropLast rfl hdrop_ne hdrop_h1
      rw [hdlen] at hdle
      refine ⟨d, hd, hd1, by omega, ?_, ?_⟩
      · rw [← hdtake d (by omega)]
        exact hdperf
      · intro e he1 he2
        rcases Nat.lt_or_ge e loops.length with helt | hege
        · have := hdmax e he1 (by omega)
          rw [hdtake e (by omega)] at this
          exact this
        · have : e = loops.length := by omega
          subst this
          rw [List.take_length]
          simpa using hperf

theorem prepare_exists_ok {root : Node} {p : Path}
    (hl : isLoopAt root p = true) (hk : has_kernels_directive root p = true) :
    ∃ r1 p1, prepare_loop_for_clause root p = .ok (r1, p1) := by
  rw [prepare_loop_for_clause, if_neg (by simpa using hl),
    if_neg (by simpa using hk)]
  by_cases hd : has_loop_directive root p = true
  · rw [if_pos hd]
    exact ⟨_, _, rfl⟩
  · rw [if_neg hd]
    exact ⟨_, _, rfl⟩

theorem collapseClauses_prepared {root r1 : Node} {p p1 : Path}
    (h : prepare_loop_for_clause root p = .ok (r1, p1)) :
    collapseClauses r1 = collapseClauses root := by
  rcases (prepare_ok_facts h).2.2.2 with ⟨rfl, rfl⟩ | ⟨rfl, rfl⟩
  · rfl
  · exact collapseClauses_applyLoopDirAt root p

/-- C2: with an explicitly supplied collapse value, `apply_loop_collapse`
raises `TypeError` on a non-integer, `ValueError` on an integer ≤ 1, and a
`ValueError` naming the requested and available counts when the value
exceeds the number of loops in the nest; in each case no collapse attribute
is set anywhere in the tree. -/
theorem apply_collapse_given_errors :
    ∀ (root : Node) (p : Path), isLoopAt root p = true →
      has_kernels_directive root p = true →
      (∀ s : String,
        (apply_loop_collapse root p (.vStr s)).2 =
          some (.typeError "Expected an integer, not '<class 'str'>'.") ∧
        collapseClauses (apply_loop_collapse root p (.vStr s)).1 =
          collapseClauses root) ∧
      (∀ n : Int, n ≤ 1 →
        (apply_loop_collapse root p (.vInt n)).2 =
          some (.valueError s!"Expected an integer greater than one, not {n}.") ∧
        collapseClauses (apply_loop_collapse root p (.vInt n)).1 =
          collapseClauses root) ∧
      (∀ (n : Int) (t : Node), root.getAt p = some t →
        ((loop2nest t).length : Int) < n →
        (apply_loop_collapse root p (.vInt n)).2 =
          some (.valueError
            s!"Cannot apply collapse to {n} loops in a sub-nest of {(loop2nest t).length}.") ∧
        collapseClauses (apply_loop_collapse root p (.vInt n)).1 =
          collapseClauses root) := by
  intro root p hl hk
  obtain ⟨r1, p1, hprep⟩ := prepare_exists_ok hl hk
  have hsub := (prepare_ok_facts hprep).1
  have hpres := collapseClauses_prepared hprep
  refine ⟨?_, ?_, ?_⟩
  · intro s
    rw [apply_loop_collapse_vStr, apply_loop_collapse_given_ok_str hprep]
    exact ⟨rfl, hpres⟩
  · intro n hn
    rw [apply_loop_collapse_vInt, apply_loop_collapse_given_ok_int hprep,
      if_pos hn]
    exact ⟨rfl, hpres⟩
  · intro n t hget hbig
    obtain ⟨t', hget', hloop'⟩ := isLoopAt_getAt hl
    rw [hget] at hget'
    cases hget'
    have htsub : (r1.getAt p1).getD default = t := by
      rw [hsub, hget]
      rfl
    have hlen1 : 1 ≤ (loop2nest t).length := by
      obtain ⟨rest, hr⟩ := loop2nest_cons hloop'
      rw [hr]
      simp
    have hn1 : ¬(n ≤ 1) := by omega
    rw [apply_loop_collapse_vInt, apply_loop_collapse_given_ok_int hprep,
      htsub, if_neg hn1, if_pos hbig]
    exact ⟨rfl, hpres⟩

/-- C1: with the collapse argument omitted, `apply_loop_collapse` finds the
largest depth `d` (trying the full nest size first and decreasing) whose
`d`-loop prefix of the nest is perfectly nested; when `d ≥ 2` it sets that
`d` as the collapse value on the loop directive two levels above the loop
and raises nothing, and when even the best depth is 1 it raises the
`ValueError` asking for an integer greater than one. -/
theorem apply_collapse_default_spec :
    ∀ (root : Node) (p : Path) (t : Node), root.getAt p = some t →
      t.isLoop = true → has_kernels_directive root p = true →
      ∃ d : Nat,
        1 ≤ d ∧ d ≤ (loop2nest t).length ∧
        is_perfectly_nested_subnest ((loop2nest t).take d) = true ∧
        (∀ e, d < e → e ≤ (loop2nest t).length →
          is_perfectly_nested_subnest ((loop2nest t).take e) = false) ∧
        (if d = 1 then
          (apply_loop_collapse root p .vNone).2 =
            some (.valueError "Expected an integer greater than one, not 1.")
        else
          (apply_loop_collapse root p .vNone).2 = none ∧
          ∃ p1, (apply_loop_collapse root p .vNone).1.getAt p1 = some t ∧
            (p1 = p ∨ p1 = p ++ [0, 0]) ∧
            ∃ dir,
              (apply_loop_collapse root p .vNone).1.getAt (ppPath p1) = some dir ∧
              dir.kind = .accLoopDir ∧ dir.clauses.collapse = some (d : Int)) := by
  intro root p t hget hloop hk
  have hl : isLoopAt root p = true := by
    rw [isLoopAt, hget]
    exact hloop
  obtain ⟨r1, p1, hprep⟩ := prepare_exists_ok hl hk
  obtain ⟨hsub, hdir, hl1, hcases⟩ := prepare_ok_facts hprep
  have htsub : (r1.getAt p1).getD default = t := by
    rw [hsub, hget]
    rfl
  obtain ⟨rest, hnest⟩ := loop2nest_cons hloop
  have hne : loop2nest t ≠ [] := by
    rw [hnest]
    simp
  have htake1 : is_perfectly_nested_subnest ((loop2nest t).take 1) = true := by
    rw [hnest, List.take_succ_cons, List.take_zero]
    rw [is_perfectly_nested_subnest]
    exact perfLevel_singleton t
  obtain ⟨d, hsearch, hd1, hdle, hdperf, hdmax⟩ :=
    collapseSearch_spec (loop2nest t).length (loop2nest t) rfl hne htake1
  have hprep1 : prepare_loop_for_clause r1 p1 = .ok (r1, p1) :=
    prepare_of_has_loop_directive hl1 hdir
  refine ⟨d, hd1, hdle, hdperf, hdmax, ?_⟩
  have hrun : apply_loop_collapse root p .vNone =
      apply_loop_collapse_given r1 p1 (.vInt d) := by
    rw [apply_loop_collapse_vNone_ok hprep, htsub, hsearch]
  by_cases hd1' : d = 1
  · subst hd1'
    rw [if_pos rfl, hrun, apply_loop_collapse_given_ok_int hprep1,
      if_pos (by norm_num)]
    rfl
  · rw [if_neg hd1']
    have hd2 : 2 ≤ d := by omega
    have hnle : ¬((d : Int) ≤ 1) := by
      omega
    have hnbig : ¬(((loop2nest ((r1.getAt p1).getD default)).length : Int) < (d : Int)) := by
      rw [htsub]
      omega
    rw [hrun, apply_loop_collapse_given_ok_int hprep1, if_neg hnle, if_neg hnbig]
    have h2len : 2 ≤ p1.length := by
      rw [has_loop_directive, Bool.and_eq_true, Bool.and_eq_true] at hdir
      simpa using hdir.1.1
    obtain ⟨a, b, hab⟩ := path_split_two h2len
    obtain ⟨dnode, hdg1, hdg2⟩ : ∃ dnode, r1.getAt (ppPath p1) = some dnode ∧
        dnode.kind = Kind.accLoopDir := by
      rw [has_loop_directive, Bool.and_eq_true, Bool.and_eq_true] at hdir
      have hknd := hdir.1.2
      rw [kindAt] at hknd
      cases hgd : r1.getAt (ppPath p1) with
      | none =>
        rw [hgd] at hknd
        simp at hknd
      | some dn =>
        rw [hgd] at hknd
        exact ⟨dn, rfl, by simpa using hknd⟩
    refine ⟨rfl, p1, ?_, ?_, ?_⟩
    · show (r1.setClausesAt (ppPath p1) _).getAt p1 = some t
      rw [hab, ppPath_append₂]
      rw [getAt_setClausesAt_deeper (by simp)]
      rw [← hab, hsub, hget]
    · rcases hcases with ⟨rfl, rfl⟩ | ⟨rfl, rfl⟩
      · exact Or.inl rfl
      · exact Or.inr rfl
    · refine ⟨.node dnode.kind
        { dnode.clauses with collapse := some (d : Int) } dnode.children, ?_, ?_, rfl⟩
      · show (r1.setClausesAt (ppPath p1) _).getAt (ppPath p1) = _
        rw [getAt_setClausesAt_self hdg1]
      · exact hdg2

theorem apply_collapse_default_spec_witness :
    ∃ d : Nat,
      1 ≤ d ∧ d ≤ (loop2nest (mkLoop "i" [mkLoop "j" [assignNode]])).length ∧
      is_perfectly_nested_subnest
        ((loop2nest (mkLoop "i" [mkLoop "j" [assignNode]])).take d) = true ∧
      (∀ e, d < e → e ≤ (loop2nest (mkLoop "i" [mkLoop "j" [assignNode]])).length →
        is_perfectly_nested_subnest
          ((loop2nest (mkLoop "i" [mkLoop "j" [assignNode]])).take e) = false) ∧
      (if d = 1 then
        (apply_loop_collapse kernelsNest2 [0, 0] .vNone).2 =
          some (.valueError "Expected an integer greater than one, not 1.")
      else
        (apply_loop_collapse kernelsNest2 [0, 0] .vNone).2 = none ∧
        ∃ p1, (apply_loop_collapse kernelsNest2 [0, 0] .vNone).1.getAt p1 =
            some (mkLoop "i" [mkLoop "j" [assignNode]]) ∧
          (p1 = [0, 0] ∨ p1 = [0, 0] ++ [0, 0]) ∧
          ∃ dir,
            (apply_loop_collapse kernelsNest2 [0, 0] .vNone).1.getAt (ppPath p1)
              = some dir ∧
            dir.kind = .accLoopDir ∧ dir.clauses.collapse = some (d : Int)) :=
  apply_collapse_default_spec kernelsNest2 [0, 0]
    (mkLoop "i" [mkLoop "j" [assignNode]]) rfl rfl (by decide)

theorem apply_collapse_given_errors_witness :
    isLoopAt kernelsNest2 [0, 0] = true ∧
    has_kernels_directive kernelsNest2 [0, 0] = true ∧
    (apply_loop_collapse kernelsNest2 [0, 0] (.vStr "two")).2 =
      some (.typeError "Expected an integer, not '<class 'str'>'.") ∧
    (apply_loop_collapse kernelsNest2 [0, 0] (.vInt 1)).2 =
      some (.valueError "Expected an integer greater than one, not 1.") ∧
    (apply_loop_collapse kernelsNest2 [0, 0] (.vInt 3)).2 =
      some (.valueError "Cannot apply collapse to 3 loops in a sub-nest of 2.") ∧
    collapseClauses (apply_loop_collapse kernelsNest2 [0, 0] (.vInt 3)).1 =
      collapseClauses kernelsNest2 :=
  ⟨by decide, by decide,
    ((apply_collapse_given_errors kernelsNest2 [0, 0] (by decide) (by decide)).1
      "two").1,
    ((apply_collapse_given_errors kernelsNest2 [0, 0] (by decide) (by decide)).2.1
      1 (by norm_num)).1,
    ((apply_collapse_given_errors kernelsNest2 [0, 0] (by decide) (by decide)).2.2
      3 (mkLoop "i" [mkLoop "j" [assignNode]]) rfl (by decide)).1,
    ((apply_collapse_given_errors kernelsNest2 [0, 0] (by decide) (by decide)).2.2
      3 (mkLoop "i" [mkLoop "j" [assignNode]]) rfl (by decide)).2⟩

theorem clause_mutual_exclusion_witness :
    (isLoopAt (apply_loop_gang kernelsNest2 [0, 0]).1 [0, 0, 0, 0] = true ∧
      has_gang_clause (apply_loop_gang kernelsNest2 [0, 0]).1 [0, 0, 0, 0] = true ∧
      apply_loop_seq (apply_loop_gang kernelsNest2 [0, 0]).1 [0, 0, 0, 0] =
        ((apply_loop_gang kernelsNest2 [0, 0]).1,
          some (.valueError "Cannot apply seq to a loop with a gang clause."))) ∧
    (seqExclusive kernelsNest2 = true ∧
      seqExclusive (apply_loop_seq kernelsNest2 [0, 0]).1 = true) :=
  ⟨⟨by decide, by decide,
      clause_mutual_exclusion.1 _ [0, 0, 0, 0] (by decide) (by decide)⟩,
    ⟨by decide,
      (clause_mutual_exclusion.2.2.2 kernelsNest2 [0, 0] (by decide)).1⟩⟩

theorem collapseScan_eq_find (root : Node) :
    ∀ (l : List Path) (i0 : Nat),
      collapseScan root l i0 =
        (match (List.enumFrom i0 l).find? (fun iq => has_loop_directive root iq.2 &&
            (clausesAt root (ppPath iq.2)).collapse.isSome) with
         | some (j, q) =>
           decide (((clausesAt root (ppPath q)).collapse).getD 0 > j)
         | none => false)
  | [], _ => by rw [collapseScan]; rfl
  | q :: rest, i0 => by
    rw [List.enumFrom_cons]
    cases hp : (has_loop_directive root q &&
        (clausesAt root (ppPath q)).collapse.isSome) with
    | true =>
      rw [Bool.and_eq_true] at hp
      obtain ⟨c, hc⟩ : ∃ c, (clausesAt root (ppPath q)).collapse = some c :=
        Option.isSome_iff_exists.mp hp.2
      rw [collapseScan, if_pos hp.1, hc]
      rw [List.find?_cons_of_pos _ (by simp [hp.1, hc])]
      simp [hc]
    | false =>
      have hLHS : collapseScan root (q :: rest) i0 =
          collapseScan root rest (i0 + 1) := by
        rw [collapseScan]
        by_cases hD : has_loop_directive root q = true
        · rw [if_pos hD]
          have hnone : (clausesAt root (ppPath q)).collapse = none := by
            cases hcol : (clausesAt root (ppPath q)).collapse with
            | none => rfl
            | some c =>
              rw [hD, hcol] at hp
              simp at hp
          rw [hnone]
        · rw [if_neg hD]
      rw [hLHS, collapseScan_eq_find root rest (i0 + 1)]
      rw [List.find?_cons_of_neg _ (by simp only [hp]; exact Bool.false_ne_true)]

/-- C5: the collapsed-membership query returns false without an enclosing
kernels directive; otherwise it is decided by the nearest inclusive loop
ancestor carrying a loop directive with a non-null collapse value `c` at
ancestor-distance `i` (`c > i`), false when no ancestor carries one; and
after `apply_loop_collapse` with collapse 2 on the kernels-wrapped depth-2
perfect nest, the query is true for both loops of the nest. -/
theorem has_collapse_clause_spec :
    (∀ (root : Node) (p : Path), isLoopAt root p = true →
      has_kernels_directive root p = false →
      has_collapse_clause root p = .ok false) ∧
    (∀ (root : Node) (p : Path), isLoopAt root p = true →
      has_kernels_directive root p = true →
      has_collapse_clause root p = .ok (collapsedSpec root p)) ∧
    (apply_loop_collapse kernelsNest2 [0, 0] (.vInt 2)).2 = none ∧
    has_collapse_clause (apply_loop_collapse kernelsNest2 [0, 0] (.vInt 2)).1
      [0, 0, 0, 0] = .ok true ∧
    has_collapse_clause (apply_loop_collapse kernelsNest2 [0, 0] (.vInt 2)).1
      [0, 0, 0, 0, 3, 0] = .ok true := by
  refine ⟨?_, ?_, by decide, rfl, rfl⟩
  · intro root p hl hk
    rw [has_collapse_clause, if_neg (by simpa using hl), if_pos (by simp [hk])]
  · intro root p hl hk
    rw [has_collapse_clause, if_neg (by simpa using hl), if_neg (by simp [hk])]
    rw [collapseScan_eq_find root (loopAncestorPathsInc root p) 0, collapsedSpec]
    rfl

theorem has_collapse_clause_spec_witness :
    isLoopAt kernelsNest2 [0, 0] = true ∧
    has_kernels_directive (mkLoop "i" [mkLoop "j" [assignNode]]) [0] = false ∧
    has_collapse_clause (mkLoop "i" [mkLoop "j" [assignNode]]) [3, 0] = .ok false ∧
    has_kernels_directive kernelsNest2 [0, 0] = true ∧
    has_collapse_clause kernelsNest2 [0, 0] =
      .ok (collapsedSpec kernelsNest2 [0, 0]) :=
  ⟨by decide, by decide,
    (has_collapse_clause_spec.1 (mkLoop "i" [mkLoop "j" [assignNode]]) [3, 0]
      (by decide) (by decide)),
    by decide,
    (has_collapse_clause_spec.2.1 kernelsNest2 [0, 0] (by decide) (by decide))⟩

theorem is_independent_chain_spec_witness :
    (is_perfectly_nested (mkLoop "i" [assignNode, mkLoop "j" [assignNode]]) = false ∧
      is_independent (mkLoop "i" [assignNode, mkLoop "j" [assignNode]]) =
        .error
          (.valueError "is_independent can only be applied to perfectly nested loops.")) ∧
    ((mkLoop "i" [mkLoop "j" [assignNode]]).isLoop = true ∧
      is_perfectly_nested (mkLoop "i" [mkLoop "j" [assignNode]]) = true ∧
      is_independent (mkLoop "i" [mkLoop "j" [assignNode]]) =
        .ok (!chainDependent (mkLoop "i" [mkLoop "j" [assignNode]]))) :=
  ⟨⟨by decide, is_independent_chain_spec.1 _ (by decide)⟩,
    ⟨rfl, by decide,
      is_independent_chain_spec.2.1 _ rfl (by decide) (by decide)⟩⟩

/-- Helper: a step of the span scan in which the checked node is an IfBlock
or Loop whose loops validate, the running loop tally stays within the
maximum, the index is past the start, and the span validation fails: the
step breaks the scan, moving only the loop tally. -/
theorem spanStep_validation_fail
    (cvt : Node → Bool × Nat) (vs : List Node → String)
    (childList : List Node) (startIdx : Nat) (maxQty : Int) (idx : Nat)
    (s : SpanState)
    (hk : (childList.getD idx default).kind = Kind.ifBlock ∨
      ∃ v, (childList.getD idx default).kind = Kind.loop v)
    (ht : (cvt (childList.getD idx default)).1 = true)
    (hq : ((s.loopChildQty + (cvt (childList.getD idx default)).2 : Int) ≤ maxQty))
    (hlt : startIdx < idx)
    (hv : vs (sliceIncl childList startIdx idx) ≠ "") :
    spanStep cvt vs childList startIdx maxQty idx s =
      ({ s with loopChildQty :=
          s.loopChildQty + (cvt (childList.getD idx default)).2 }, false) := by
  have hq2 : ¬ ((((s.loopChildQty +
      (cvt (childList.getD idx default)).2 : Nat) : Int)) > maxQty) := by
    push_cast
    omega
  have h1 : ¬ (vs (sliceIncl childList startIdx idx)).length = 0 := by
    intro h0
    exact hv (String.ext (List.length_eq_zero.mp h0))
  rcases hk with hk | ⟨v, hk⟩ <;>
  · simp only [spanStep, hk, ht, Bool.true_or, if_true, hq2, hlt, h1, hv,
      ite_true, ite_false, decide_eq_true_eq]
    simp [h1, hv, hq2]

/-- Helper: a step of the span scan in which the checked node is an IfBlock
or Loop whose loops validate but push the running loop tally beyond the
maximum: the step breaks the scan, moving only the loop tally. -/
theorem spanStep_qty_break
    (cvt : Node → Bool × Nat) (vs : List Node → String)
    (childList : List Node) (startIdx : Nat) (maxQty : Int) (idx : Nat)
    (s : SpanState)
    (hk : (childList.getD idx default).kind = Kind.ifBlock ∨
      ∃ v, (childList.getD idx default).kind = Kind.loop v)
    (ht : (cvt (childList.getD idx default)).1 = true)
    (hq : ((s.loopChildQty + (cvt (childList.getD idx default)).2 : Int) > maxQty)) :
    spanStep cvt vs childList startIdx maxQty idx s =
      ({ s with loopChildQty :=
          s.loopChildQty + (cvt (childList.getD idx default)).2 }, false) := by
  have hq2 : (((s.loopChildQty +
      (cvt (childList.getD idx default)).2 : Nat) : Int)) > maxQty := by
    push_cast
    omega
  rcases hk with hk | ⟨v, hk⟩ <;>
  · simp only [spanStep, hk, ht, ite_true, decide_eq_true_eq, hq2]

/-- Helper: unpacking a successful run of the decision tail of
`span_parallel`: the transform is applied exactly on the recorded
`[start..last_good]` span, and only when it has more than one statement. -/
theorem span_parallel_core_some (cvt : Node → Bool × Nat)
    (vs : List Node → String) (childList : List Node) (startIdx : Nat)
    (maxQty : Int) (span : List Node)
    (h : span_parallel_core cvt vs childList startIdx maxQty = some span) :
    1 < span.length ∧
    (span_check_loop cvt vs childList startIdx maxQty).1 = true ∧
    span = sliceIncl childList startIdx
      (span_check_loop cvt vs childList startIdx maxQty).2 := by
  simp only [span_parallel_core] at h
  by_cases hp : (span_check_loop cvt vs childList startIdx maxQty).1 = true
  · rw [if_pos hp] at h
    by_cases hl : (sliceIncl childList startIdx
        (span_check_loop cvt vs childList startIdx maxQty).2).length > 1
    · rw [if_pos hl] at h
      obtain rfl : sliceIncl childList startIdx
          (span_check_loop cvt vs childList startIdx maxQty).2 = span := by
        simpa using h
      exact ⟨hl, hp, rfl⟩
    · rw [if_neg hl] at h
      exact absurd h (by simp)
  · rw [if_neg hp] at h
    exact absurd h (by simp)

/-- C7: in the parallel-region-spanning heuristic, whenever validation of a
tentatively extended span fails the scan stops, keeping the previously
recorded possibility flag and last known-good end index (only the running
loop tally moves); and the parallel-region transform is actually applied
exactly when the scan succeeded and the final span from the start statement
to the last known-good end contains more than one statement, the applied
node list being precisely that span. -/
theorem span_stop_and_apply_guard :
    (∀ (cvt : Node → Bool × Nat) (vs : List Node → String)
        (childList : List Node) (startIdx : Nat) (maxQty : Int) (idx : Nat)
        (rest : List Nat) (s : SpanState),
      ((childList.getD idx default).kind = Kind.ifBlock ∨
        ∃ v, (childList.getD idx default).kind = Kind.loop v) →
      (cvt (childList.getD idx default)).1 = true →
      ((s.loopChildQty + (cvt (childList.getD idx default)).2 : Int) ≤ maxQty) →
      startIdx < idx →
      vs (sliceIncl childList startIdx idx) ≠ "" →
      spanLoop cvt vs childList startIdx maxQty (idx :: rest) s =
        { s with loopChildQty :=
            s.loopChildQty + (cvt (childList.getD idx default)).2 }) ∧
    (∀ (cvt : Node → Bool × Nat) (vs : List Node → String) (root : Node)
        (p : Path) (maxQty : Int) (span : List Node),
      span_parallel cvt vs root p maxQty = some span →
      1 < span.length ∧
      ∃ (childList : List Node) (startIdx : Nat),
        (span_check_loop cvt vs childList startIdx maxQty).1 = true ∧
        span = sliceIncl childList startIdx
          (span_check_loop cvt vs childList startIdx maxQty).2) := by
  constructor
  · intro cvt vs childList startIdx maxQty idx rest s hk ht hq hlt hv
    rw [spanLoop, spanStep_validation_fail cvt vs childList startIdx maxQty idx s
      hk ht hq hlt hv]
  · intro cvt vs root p maxQty span h
    simp only [span_parallel] at h
    cases hif : firstAncPathWith root p (fun k => k == Kind.ifBlock) with
    | some q =>
      rw [hif] at h
      simp only at h
      cases hsh : firstAncPathWith root q (fun k => k == Kind.schedule) with
      | some sp =>
        rw [hsh] at h
        simp only at h
        obtain ⟨h1, h2, h3⟩ := span_parallel_core_some _ _ _ _ _ _ h
        exact ⟨h1, _, _, h2, h3⟩
      | none => rw [hsh] at h; exact absurd h (by simp)
    | none =>
      rw [hif] at h
      simp only at h
      cases hsh : firstAncPathWith root p (fun k => k == Kind.schedule) with
      | some sp =>
        rw [hsh] at h
        simp only at h
        obtain ⟨h1, h2, h3⟩ := span_parallel_core_some _ _ _ _ _ _ h
        exact ⟨h1, _, _, h2, h3⟩
      | none => rw [hsh] at h; exact absurd h (by simp)

theorem span_stop_and_apply_guard_witness :
    ((([assignNode, mkLoop "i" [assignNode], assignNode].getD 1 default).kind =
        Kind.ifBlock ∨
      ∃ v, ([assignNode, mkLoop "i" [assignNode], assignNode].getD 1
        default).kind = Kind.loop v) ∧
      (((fun (_ : Node) => (true, 1)) ([assignNode, mkLoop "i" [assignNode],
        assignNode].getD 1 default)).1 = true) ∧
      ((((⟨false, 0, 0⟩ : SpanState).loopChildQty +
        ((fun (_ : Node) => (true, 1)) ([assignNode, mkLoop "i" [assignNode],
          assignNode].getD 1 default)).2 : Int) ≤ 12)) ∧
      (0 < 1) ∧
      ((fun (_ : List Node) => "boom") (sliceIncl [assignNode,
        mkLoop "i" [assignNode], assignNode] 0 1) ≠ "") ∧
      spanLoop (fun _ => (true, 1)) (fun _ => "boom")
          [assignNode, mkLoop "i" [assignNode], assignNode] 0 12 [1, 2]
          ⟨false, 0, 0⟩ = ⟨false, 0, 1⟩) ∧
    (span_parallel (fun _ => (true, 1)) (fun _ => "")
        (Node.node Kind.schedule {} [mkLoop "i" [assignNode],
          mkLoop "j" [assignNode], assignNode]) [0] 12 =
      some [mkLoop "i" [assignNode], mkLoop "j" [assignNode]] ∧
      1 < [mkLoop "i" [assignNode], mkLoop "j" [assignNode]].length ∧
      ∃ (childList : List Node) (startIdx : Nat),
        (span_check_loop (fun _ => (true, 1)) (fun _ => "") childList startIdx
          12).1 = true ∧
        [mkLoop "i" [assignNode], mkLoop "j" [assignNode]] =
          sliceIncl childList startIdx
            (span_check_loop (fun _ => (true, 1)) (fun _ => "") childList
              startIdx 12).2) :=
  ⟨⟨Or.inr ⟨"i", rfl⟩, rfl, by decide, by decide, by decide,
      span_stop_and_apply_guard.1 (fun _ => (true, 1)) (fun _ => "boom")
        [assignNode, mkLoop "i" [assignNode], assignNode] 0 12 1 [2]
        ⟨false, 0, 0⟩ (Or.inr ⟨"i", rfl⟩) rfl (by decide) (by decide)
        (by decide)⟩,
    ⟨by decide,
      span_stop_and_apply_guard.2 (fun _ => (true, 1)) (fun _ => "")
        (Node.node Kind.schedule {} [mkLoop "i" [assignNode],
          mkLoop "j" [assignNode], assignNode]) [0] 12
        [mkLoop "i" [assignNode], mkLoop "j" [assignNode]] (by decide)⟩⟩

/-- C8 counterexample: a non-Node `node` argument (and likewise a non-bool
`inclusive` argument) makes `get_descendents` fail with an
`AssertionError` — as the repository's own test suite asserts — not with the
`TypeError` the claim states. -/
theorem get_descendents_assertion_counterexample :
    get_descendents (.aInt 3) (fun _ => true) (.aBool false) (fun _ => false)
        .aNone 0 =
      .error (.assertionError "Expected a Node, not '<class 'int'>'.") ∧
    (match get_descendents (.aInt 3) (fun _ => true) (.aBool false)
        (fun _ => false) .aNone 0 with
     | .error e => e.isTypeErr
     | .ok _ => true) = false ∧
    get_descendents (.aNode assignNode) (fun _ => true) (.aInt 0)
        (fun _ => false) .aNone 0 =
      .error (.assertionError "Expected a bool, not '<class 'int'>'.") :=
  ⟨rfl, rfl, rfl⟩

/-- C8 (corrected): `get_descendents` does reject a non-Node `node` argument
and a non-bool `inclusive` argument for every remaining input, but through
its `assert isinstance` guards, so the failure is an `AssertionError`
carrying the type-naming message, not a `TypeError`. -/
theorem get_descendents_type_guards :
    (∀ (v : PyArg) (nt : Kind → Bool) (incl : PyArg) (ex : Kind → Bool)
        (dep : PyArg) (d0 : Nat), (∀ t, v ≠ .aNode t) →
      get_descendents v nt incl ex dep d0 =
        .error (.assertionError
          ("Expected a Node, not '" ++ pyArgTypeName v ++ "'."))) ∧
    (∀ (t : Node) (nt : Kind → Bool) (v : PyArg) (ex : Kind → Bool)
        (dep : PyArg) (d0 : Nat), (∀ b, v ≠ .aBool b) →
      get_descendents (.aNode t) nt v ex dep d0 =
        .error (.assertionError
          ("Expected a bool, not '" ++ pyArgTypeName v ++ "'."))) := by
  constructor
  · intro v nt incl ex dep d0 hv
    cases v with
    | aNode t => exact absurd rfl (hv t)
    | aBool b => rfl
    | aInt n => rfl
    | aFloat => rfl
    | aStr st => rfl
    | aNone => rfl
  · intro t nt v ex dep d0 hv
    cases v with
    | aBool b => exact absurd rfl (hv b)
    | aNode u => rfl
    | aInt n => rfl
    | aFloat => rfl
    | aStr st => rfl
    | aNone => rfl

theorem get_descendents_type_guards_witness :
    ((∀ t, PyArg.aStr "x" ≠ PyArg.aNode t) ∧
      get_descendents (.aStr "x") (fun _ => true) (.aBool true)
          (fun _ => false) .aNone 0 =
        .error (.assertionError
          ("Expected a Node, not '" ++ pyArgTypeName (.aStr "x") ++ "'."))) ∧
    ((∀ b, PyArg.aInt 0 ≠ PyArg.aBool b) ∧
      get_descendents (.aNode assignNode) (fun _ => true) (.aInt 0)
          (fun _ => false) .aNone 0 =
        .error (.assertionError
          ("Expected a bool, not '" ++ pyArgTypeName (.aInt 0) ++ "'."))) :=
  ⟨⟨fun _ h => PyArg.noConfusion h,
      get_descendents_type_guards.1 (.aStr "x") (fun _ => true) (.aBool true)
        (fun _ => false) .aNone 0 (fun _ h => PyArg.noConfusion h)⟩,
    ⟨fun _ h => PyArg.noConfusion h,
      get_descendents_type_guards.2 assignNode (fun _ => true) (.aInt 0)
        (fun _ => false) .aNone 0 (fun _ h => PyArg.noConfusion h)⟩⟩

/-- C10: an `OverridesClass` built without a `loop_max_qty` argument, or
with a falsy (zero) one, reports the default maximum span quantity 12; and
with that maximum the span scan of `span_check_loop` truncates — breaking
with the recorded possibility flag and last known-good index untouched — as
soon as the running count of spanned loops exceeds 12. -/
theorem overrides_default_max_qty :
    OverridesClass.get_loop_max_qty (mkOverridesClass none none) = 12 ∧
    OverridesClass.get_loop_max_qty (mkOverridesClass (some 0) none) = 12 ∧
    (∀ (cvt : Node → Bool × Nat) (vs : List Node → String)
        (childList : List Node) (startIdx idx : Nat) (rest : List Nat)
        (s : SpanState),
      ((childList.getD idx default).kind = Kind.ifBlock ∨
        ∃ v, (childList.getD idx default).kind = Kind.loop v) →
      (cvt (childList.getD idx default)).1 = true →
      ((s.loopChildQty + (cvt (childList.getD idx default)).2 : Int) >
        OverridesClass.get_loop_max_qty (mkOverridesClass none none)) →
      spanLoop cvt vs childList startIdx
          (OverridesClass.get_loop_max_qty (mkOverridesClass none none))
          (idx :: rest) s =
        { s with loopChildQty :=
            s.loopChildQty + (cvt (childList.getD idx default)).2 }) := by
  refine ⟨rfl, rfl, ?_⟩
  intro cvt vs childList startIdx idx rest s hk ht hq
  rw [spanLoop, spanStep_qty_break cvt vs childList startIdx _ idx s hk ht hq]

theorem overrides_default_max_qty_witness :
    ((([mkLoop "i" [assignNode]].getD 0 default).kind = Kind.ifBlock ∨
      ∃ v, ([mkLoop "i" [assignNode]].getD 0 default).kind = Kind.loop v) ∧
      (((fun (_ : Node) => (true, 13)) ([mkLoop "i" [assignNode]].getD 0
        default)).1 = true) ∧
      ((((⟨false, 0, 0⟩ : SpanState).loopChildQty +
        ((fun (_ : Node) => (true, 13)) ([mkLoop "i" [assignNode]].getD 0
          default)).2 : Int) >
        OverridesClass.get_loop_max_qty (mkOverridesClass none none))) ∧
      spanLoop (fun _ => (true, 13)) (fun _ => "") [mkLoop "i" [assignNode]]
          0 (OverridesClass.get_loop_max_qty (mkOverridesClass none none))
          [0] ⟨false, 0, 0⟩ = ⟨false, 0, 13⟩) :=
  ⟨Or.inr ⟨"i", rfl⟩, rfl, by decide,
    overrides_default_max_qty.2.2 (fun _ => (true, 13)) (fun _ => "")
      [mkLoop "i" [assignNode]] 0 0 [] ⟨false, 0, 0⟩ (Or.inr ⟨"i", rfl⟩) rfl
      (by decide)⟩

end PSyTran

